import Mathlib

/-!
Verification of the Entitlement Reconciliation Engine of the Seolaxy Discord
bot (`src/services/subscriptionService.js`, `src/services/database.js`,
`src/services/stripeService.js`, `src/services/subscriptionReset.js`,
`src/config/stripe.js`, `src/constants/roles.js`).

The JavaScript source is shallowly embedded: module-level mutable state
becomes explicit state records, async functions become pure functions from
state to state plus an emitted list of side effects, external collaborators
(Stripe, Discord, MySQL) become oracles or explicit state, and timestamps
are integer milliseconds.  `try/catch` blocks that swallow errors become
total functions; fallible primitives are modelled with `Except` where the
distinction between "throws" and "returns false" matters.
-/

namespace Seolaxy

/-- Subscription status values: the MySQL enum
`('active','past_due','canceled','unpaid','trialing','none')` plus a
catch-all for any other string Stripe may report (handled by the `default`
branch of `handleSubscriptionStatusChange`). -/
inductive SubStatus where
  | active
  | past_due
  | canceled
  | unpaid
  | trialing
  | none
  | other (s : String)
deriving DecidableEq, Repr

/-- One row of the `users` table (`database.js` / `createUsersTable`).
The timestamp bookkeeping columns `created_at` / `updated_at` and the
registration-only columns are carried but never consulted by the
reconciliation logic. -/
structure DbUser where
  discord_id : String
  discord_username : String
  first_name : String
  last_name : String
  email : String
  project_name : Option String
  invoice_number : Option String
  stripe_customer_id : Option String
  stripe_subscription_id : Option String
  subscription_status : SubStatus
  subscription_ends_at : Option Int
  is_legacy_user : Bool
deriving DecidableEq, Repr

/-- The `users` table, as the list of its rows.  `discord_id` is declared
UNIQUE in the schema; SELECT/UPDATE/DELETE statements are modelled as the
corresponding list operations in table order (ORDER BY clauses in the
source only permute returned rows and no verified property depends on row
order, so they are not modelled). -/
abbrev Db := List DbUser

/-- Embedding of `database.getUserByDiscordId`: `SELECT * FROM users WHERE
discord_id = ? LIMIT 1` (errors are caught and produce `null`, i.e.
`none`). -/
def getUserByDiscordId (db : Db) (discordId : String) : Option DbUser :=
  db.find? (fun u => u.discord_id = discordId)

/-- Payload of `database.updateUserSubscription`: the four columns written
by the UPDATE.  `stripeCustomerId`/`stripeSubscriptionId` go through
`COALESCE(?, col)`, so `none` keeps the stored value. -/
structure SubscriptionUpdate where
  stripeCustomerId : Option String
  stripeSubscriptionId : Option String
  subscriptionStatus : SubStatus
  subscriptionEndsAt : Option Int
deriving DecidableEq, Repr

/-- Application of the UPDATE row transformation of
`database.updateUserSubscription` to a single matching row. -/
def applySubscriptionUpdate (d : SubscriptionUpdate) (u : DbUser) : DbUser :=
  { u with
    stripe_customer_id := d.stripeCustomerId.orElse (fun _ => u.stripe_customer_id)
    stripe_subscription_id := d.stripeSubscriptionId.orElse (fun _ => u.stripe_subscription_id)
    subscription_status := d.subscriptionStatus
    subscription_ends_at := d.subscriptionEndsAt }

/-- The SQL UPDATE of `database.updateUserSubscription` as executed by the
driver: fails (throws) when `dbFail` injects a connection/SQL error,
otherwise returns the new table and the number of affected rows. -/
def updateUserSubscriptionQuery (dbFail : Bool) (db : Db) (discordId : String)
    (d : SubscriptionUpdate) : Except String (Db × Nat) :=
  if dbFail then .error "db error"
  else .ok
    (db.map (fun u => if u.discord_id = discordId then applySubscriptionUpdate d u else u),
     db.countP (fun u => decide (u.discord_id = discordId)))

/-- Embedding of `database.updateUserSubscription`: the surrounding
`try/catch` turns a thrown driver error into `false`, and zero affected
rows (no user with this Discord id) also returns `false`; the function
never throws. -/
def updateUserSubscription (dbFail : Bool) (db : Db) (discordId : String)
    (d : SubscriptionUpdate) : Db × Bool :=
  match updateUserSubscriptionQuery dbFail db discordId d with
  | .error _ => (db, false)
  | .ok (db2, n) => if 0 < n then (db2, true) else (db2, false)

/-- Payload of `database.saveSubscriptionUser` (INSERT ... ON DUPLICATE KEY
UPDATE).  The JS applies defaults `firstName || ""`, `subscriptionStatus ||
"active"`, `subscriptionEndsAt || null`; optional fields model that. -/
structure SaveSubscriptionData where
  discordId : String
  discordUsername : String
  firstName : Option String
  lastName : Option String
  email : Option String
  projectName : Option String
  stripeCustomerId : Option String
  stripeSubscriptionId : Option String
  subscriptionStatus : Option SubStatus
  subscriptionEndsAt : Option Int
deriving DecidableEq, Repr

/-- The row inserted by `database.saveSubscriptionUser` when no row with
this `discord_id` exists. -/
def saveSubscriptionRow (d : SaveSubscriptionData) : DbUser :=
  { discord_id := d.discordId
    discord_username := d.discordUsername
    first_name := d.firstName.getD ""
    last_name := d.lastName.getD ""
    email := d.email.getD ""
    project_name := d.projectName
    invoice_number := Option.none
    stripe_customer_id := d.stripeCustomerId
    stripe_subscription_id := d.stripeSubscriptionId
    subscription_status := d.subscriptionStatus.getD .active
    subscription_ends_at := d.subscriptionEndsAt
    is_legacy_user := false }

/-- The ON DUPLICATE KEY UPDATE branch of `database.saveSubscriptionUser`,
applied to the existing row with the same `discord_id`. -/
def saveSubscriptionUpdateRow (d : SaveSubscriptionData) (u : DbUser) : DbUser :=
  { u with
    discord_username := d.discordUsername
    first_name := d.firstName.getD ""
    last_name := d.lastName.getD ""
    email := d.email.getD ""
    project_name := d.projectName
    stripe_customer_id := d.stripeCustomerId
    stripe_subscription_id := d.stripeSubscriptionId
    subscription_status := d.subscriptionStatus.getD .active
    subscription_ends_at := d.subscriptionEndsAt }

/-- Embedding of `database.saveSubscriptionUser`: INSERT ... ON DUPLICATE
KEY UPDATE on the unique key `discord_id`; the `try/catch` turns a driver
error (injected by `dbFail`) into `false`. -/
def saveSubscriptionUser (dbFail : Bool) (db : Db) (d : SaveSubscriptionData) : Db × Bool :=
  if dbFail then (db, false)
  else if db.any (fun u => decide (u.discord_id = d.discordId)) then
    (db.map (fun u => if u.discord_id = d.discordId then saveSubscriptionUpdateRow d u else u),
     true)
  else (db ++ [saveSubscriptionRow d], true)

/-- Embedding of `database.deleteUser`: `DELETE FROM users WHERE discord_id
= ?`; returns `true` iff a row was deleted, catches driver errors
(injected by `dbFail`) and returns `false`. -/
def deleteUser (dbFail : Bool) (db : Db) (discordId : String) : Db × Bool :=
  if dbFail then (db, false)
  else (db.filter (fun u => !(decide (u.discord_id = discordId))),
        db.any (fun u => decide (u.discord_id = discordId)))

/-- Embedding of `database.getUsersWithActiveSubscriptions`: rows with
`subscription_status IN ('active','trialing','past_due')` and a non-null
`stripe_subscription_id`. -/
def getUsersWithActiveSubscriptions (db : Db) : List DbUser :=
  db.filter (fun u =>
    (decide (u.subscription_status = .active) ||
     decide (u.subscription_status = .trialing) ||
     decide (u.subscription_status = .past_due)) &&
    !u.stripe_subscription_id.isNone)

/-- Embedding of `database.getLegacyUsers`: rows with `is_legacy_user =
TRUE` and `subscription_status` equal to `'trialing'` **or `'none'`**. -/
def getLegacyUsers (db : Db) : List DbUser :=
  db.filter (fun u =>
    u.is_legacy_user &&
    (decide (u.subscription_status = .trialing) || decide (u.subscription_status = .none)))

/-- Side effects dispatched by the subscription service towards Discord
(role mutations and best-effort DMs, all internally try/caught in the
source) and towards Stripe (`getCheckoutSession` queries).  An effect
records that the corresponding call was dispatched. -/
inductive Effect where
  | assignRoles (discordId : String)
  | removeRoles (discordId : String)
  | dmWelcome (discordId : String)
  | dmActivated (discordId : String)
  | dmPaymentFailed (discordId : String)
  | dmSubscriptionEnded (discordId : String) (reason : SubStatus)
  | dmLegacyExpiry (discordId : String)
  | logTrialing (discordId : String)
  | logUnknownStatus (discordId : String)
  | queryCheckoutSession (sessionId : String)
deriving DecidableEq, Repr

/-- Result of a reconciliation step: the table after its writes and the
effects it dispatched. -/
structure DbEff where
  db : Db
  effs : List Effect
deriving DecidableEq, Repr

/-- Embedding of `handleSubscriptionStatusChange`: persist the new status
and period end (`COALESCE` keeps the stored Stripe ids), then dispatch the
side effect chosen by the `switch` on the **new** status.  The stored
(old) status is not consulted. -/
def handleSubscriptionStatusChange (dbFail : Bool) (db : Db) (discordId : String)
    (newStatus : SubStatus) (currentPeriodEnd : Option Int) : DbEff :=
  let u := updateUserSubscription dbFail db discordId
    ⟨Option.none, Option.none, newStatus, currentPeriodEnd⟩
  match newStatus with
  | .active => ⟨u.1, [.assignRoles discordId, .dmActivated discordId]⟩
  | .past_due => ⟨u.1, [.dmPaymentFailed discordId]⟩
  | .canceled => ⟨u.1, [.removeRoles discordId, .dmSubscriptionEnded discordId newStatus]⟩
  | .unpaid => ⟨u.1, [.removeRoles discordId, .dmSubscriptionEnded discordId newStatus]⟩
  | .trialing => ⟨u.1, [.logTrialing discordId]⟩
  | _ => ⟨u.1, [.logUnknownStatus discordId]⟩

/-- The per-row expiry test of `checkLegacyUserExpiry`:
`user.subscription_ends_at && new Date(user.subscription_ends_at) <= now`. -/
def legacyExpired (now : Int) (u : DbUser) : Bool :=
  match u.subscription_ends_at with
  | some t => t ≤ now
  | Option.none => false

/-- Loop body of `checkLegacyUserExpiry` for one snapshot row: when the
grace period elapsed, persist status `canceled` with `ends_at = now`, then
remove roles and send the expiry DM. -/
def legacyStep (dbFail : Bool) (now : Int) (acc : DbEff) (u : DbUser) : DbEff :=
  if legacyExpired now u then
    let w := updateUserSubscription dbFail acc.db u.discord_id
      ⟨Option.none, Option.none, .canceled, some now⟩
    ⟨w.1, acc.effs ++ [.removeRoles u.discord_id, .dmLegacyExpiry u.discord_id]⟩
  else acc

/-- Embedding of `checkLegacyUserExpiry`: iterate the `getLegacyUsers`
snapshot; for each expired row set status `canceled` with `ends_at = now`,
remove roles and notify.  Per-user failures are caught inside the shared
helpers, so the loop never aborts. -/
def checkLegacyUserExpiry (dbFail : Bool) (now : Int) (db : Db) : DbEff :=
  (getLegacyUsers db).foldl (legacyStep dbFail now) ⟨db, []⟩

/-- Data carried by a checkout session that `stripeService.getCheckoutSession`
reports as `paid` (payment_status "paid" with a resolved subscription). -/
structure PaidSessionData where
  discordId : String
  customerId : Option String
  customerEmail : Option String
  subscriptionId : String
  subscriptionStatus : SubStatus
  currentPeriodEnd : Int
deriving DecidableEq, Repr

/-- Outcome of `stripeService.getCheckoutSession` for one session id:
`failure` is the catch branch (`success: false`), `unpaid` is `success:
true, paid: false`, and `paid` carries the resolved session data. -/
inductive SessionResult where
  | failure
  | unpaid
  | paid (data : PaidSessionData)
deriving DecidableEq, Repr

/-- Oracle for the billing provider: checkout-session lookup by session id. -/
abbrev SessionOracle := String → SessionResult

/-- Oracle for `discordClient.users.fetch`: the user tag when the Discord
user resolves, `none` when the fetch fails. -/
abbrev UserOracle := String → Option String

/-- Embedding of `processNewSubscription`: update the existing row or
insert a new one, then assign roles and send the welcome DM.  Everything is
inside one `try/catch`; the helpers used here never throw. -/
def processNewSubscription (dbFail : Bool) (users : UserOracle) (db : Db)
    (s : PaidSessionData) : DbEff :=
  let db2 :=
    match getUserByDiscordId db s.discordId with
    | some _ =>
      (updateUserSubscription dbFail db s.discordId
        ⟨s.customerId, some s.subscriptionId, s.subscriptionStatus, some s.currentPeriodEnd⟩).1
    | Option.none =>
      let tag := (users s.discordId).getD ("User#" ++ s.discordId)
      (saveSubscriptionUser dbFail db
        { discordId := s.discordId
          discordUsername := tag
          firstName := some ""
          lastName := some ""
          email := s.customerEmail
          projectName := Option.none
          stripeCustomerId := s.customerId
          stripeSubscriptionId := some s.subscriptionId
          subscriptionStatus := some s.subscriptionStatus
          subscriptionEndsAt := some s.currentPeriodEnd }).1
  ⟨db2, [.assignRoles s.discordId, .dmWelcome s.discordId]⟩

/-- Entry of the in-memory pending-checkout map
 (`Map<discordId, sessionId-and-createdAt>`). -/
structure PendingCheckout where
  sessionId : String
  createdAt : Int
deriving DecidableEq, Repr

/-- Module-level mutable scheduler state of `subscriptionService.js`:
the two interval handles (`normalPollingInterval`, `fastPollingInterval`,
modelled as optional timer ids drawn from a counter so that creating a new
timer is observable) and the `pendingCheckouts` map (association list in
insertion order, keys unique as in a JS `Map`). -/
structure SchedulerState where
  normalTimer : Option Nat
  fastTimer : Option Nat
  nextTimerId : Nat
  pending : List (String × PendingCheckout)
deriving DecidableEq, Repr

/-- JS `Map.set`: overwrite in place when the key exists, append
otherwise. -/
def mapSet (l : List (String × PendingCheckout)) (k : String) (v : PendingCheckout) :
    List (String × PendingCheckout) :=
  if l.any (fun p => decide (p.1 = k)) then
    l.map (fun p => if p.1 = k then (p.1, v) else p)
  else l ++ [(k, v)]

/-- Embedding of `startFastPolling` (state part): create the fast interval
if absent.  The immediate `checkPendingCheckouts()` it fires is an async
call modelled as a separate sweep step. -/
def startFastPolling (st : SchedulerState) : SchedulerState :=
  match st.fastTimer with
  | some _ => st
  | Option.none =>
    { st with fastTimer := some st.nextTimerId, nextTimerId := st.nextTimerId + 1 }

/-- Embedding of `triggerFastPolling` (`track`): register/overwrite the
pending entry with the current timestamp, then start the fast timer if it
is not already running. -/
def triggerFastPolling (st : SchedulerState) (discordId sessionId : String)
    (now : Int) : SchedulerState :=
  let st2 := { st with pending := mapSet st.pending discordId ⟨sessionId, now⟩ }
  match st2.fastTimer with
  | some _ => st2
  | Option.none => startFastPolling st2

/-- Embedding of `stopFastPolling(discordId)`: delete the entry, and clear
the fast interval when the map became empty and the interval exists. -/
def stopFastPolling (st : SchedulerState) (discordId : String) : SchedulerState :=
  if (st.pending.filter (fun q => !(decide (q.1 = discordId)))).length = 0
      && !st.fastTimer.isNone then
    { st with pending := st.pending.filter (fun q => !(decide (q.1 = discordId)))
              fastTimer := Option.none }
  else { st with pending := st.pending.filter (fun q => !(decide (q.1 = discordId))) }

/-- Fast-polling duration bound from `config/stripe.js`:
`fastDuration: 20 * 60 * 1000` milliseconds. -/
def fastDuration : Int := 20 * 60 * 1000

/-- Fast-polling interval from `config/stripe.js`: `60 * 1000` ms. -/
def fastInterval : Int := 60 * 1000

/-- Normal polling interval from `config/stripe.js`: `60 * 60 * 1000` ms. -/
def normalInterval : Int := 60 * 60 * 1000

/-- Result of one fast sweep: scheduler state, table and dispatched
effects. -/
structure SweepResult where
  state : SchedulerState
  db : Db
  effs : List Effect
deriving DecidableEq, Repr

/-- Loop body of `checkPendingCheckouts`: accumulate the ids to drop
(`expiredUsers`), the evolving table and the dispatched effects.  An entry
past `fastDuration` is dropped without querying the provider; an entry
whose session is reported paid runs `processNewSubscription` and is
dropped; any other entry (unpaid or query failure) is left alone. -/
def checkPendingStep (dbFail : Bool) (now : Int) (sessions : SessionOracle)
    (users : UserOracle) (acc : List String × Db × List Effect)
    (p : String × PendingCheckout) : List String × Db × List Effect :=
  let (expired, db, effs) := acc
  if now - p.2.createdAt > fastDuration then
    (expired ++ [p.1], db, effs)
  else
    match sessions p.2.sessionId with
    | .paid s =>
      let r := processNewSubscription dbFail users db s
      (expired ++ [p.1], r.db, effs ++ [.queryCheckoutSession p.2.sessionId] ++ r.effs)
    | _ => (expired, db, effs ++ [.queryCheckoutSession p.2.sessionId])

/-- Embedding of `checkPendingCheckouts`: early-return on an empty map,
otherwise sweep all entries and finally run `stopFastPolling` for every
collected id (processed or expired). -/
def checkPendingCheckouts (dbFail : Bool) (now : Int) (sessions : SessionOracle)
    (users : UserOracle) (st : SchedulerState) (db : Db) : SweepResult :=
  if st.pending.length = 0 then ⟨st, db, []⟩
  else
    let r := st.pending.foldl (checkPendingStep dbFail now sessions users) ([], db, [])
    ⟨r.1.foldl stopFastPolling st, r.2.1, r.2.2⟩

/-- Embedding of `startPolling` (state part): warn and no-op if the normal
interval already exists, otherwise create it.  The immediate
`checkAllSubscriptions()` it fires is modelled as a separate sweep step. -/
def startPolling (st : SchedulerState) : SchedulerState :=
  match st.normalTimer with
  | some _ => st
  | Option.none =>
    { st with normalTimer := some st.nextTimerId, nextTimerId := st.nextTimerId + 1 }

/-- Embedding of `stopPolling`: clear both intervals and the pending map. -/
def stopPolling (st : SchedulerState) : SchedulerState :=
  { st with normalTimer := Option.none, fastTimer := Option.none, pending := [] }

/-- One subscription object returned by the Stripe list call, restricted
to the fields `getAllActiveSubscriptions` reads. -/
structure StripeSubData where
  id : String
  metadataDiscordId : Option String
  status : SubStatus
  currentPeriodEnd : Int
  cancelAtPeriodEnd : Bool
  customerId : String
deriving DecidableEq, Repr

/-- State of the billing provider as seen through
`stripe.subscriptions.list`: its subscription list, and whether the list
call fails (network error, or a missing key leaving the client
uninitialised — both produce an empty result in the source). -/
structure ProviderState where
  subs : List StripeSubData
  listError : Bool
deriving DecidableEq, Repr

/-- Element of the array built by `getAllActiveSubscriptions`. -/
structure SubInfo where
  subscriptionId : String
  discordId : String
  status : SubStatus
  currentPeriodEnd : Int
  cancelAtPeriodEnd : Bool
  customerId : String
deriving DecidableEq, Repr

/-- Loop body of `getAllActiveSubscriptions`: keep a subscription only
when its metadata carries a `discord_id`. -/
def listSubsStep (acc : List SubInfo) (s : StripeSubData) : List SubInfo :=
  match s.metadataDiscordId with
  | some d =>
    acc ++ [⟨s.id, d, s.status, s.currentPeriodEnd, s.cancelAtPeriodEnd, s.customerId⟩]
  | Option.none => acc

/-- Embedding of `stripeService.getAllActiveSubscriptions`: one page of
`stripe.subscriptions.list` with `limit: 100` and no pagination, keeping
only subscriptions whose metadata carries a `discord_id`; a list error (or
uninitialised client) yields the empty array instead of throwing. -/
def getAllActiveSubscriptions (p : ProviderState) : List SubInfo :=
  if p.listError then []
  else (p.subs.take 100).foldl listSubsStep []

/-- Loop body of `checkAllSubscriptions` for one Stripe subscription.
Lookups go through the `dbUserMap` snapshot `db0` built from the initial
`fetchAllUsers`; writes go to the evolving table.  Three cases: no local
record (sync), record missing Stripe linkage (backfill), status changed
(full transition); otherwise skip. -/
def checkAllStep (dbFail : Bool) (users : UserOracle) (db0 : Db) (acc : DbEff)
    (s : SubInfo) : DbEff :=
  match getUserByDiscordId db0 s.discordId with
  | Option.none =>
    match users s.discordId with
    | Option.none => acc
    | some tag =>
      let w := saveSubscriptionUser dbFail acc.db
        { discordId := s.discordId
          discordUsername := tag
          firstName := some ""
          lastName := some ""
          email := some ""
          projectName := Option.none
          stripeCustomerId := some s.customerId
          stripeSubscriptionId := some s.subscriptionId
          subscriptionStatus := some s.status
          subscriptionEndsAt := some s.currentPeriodEnd }
      if s.status = .active then
        ⟨w.1, acc.effs ++ [.assignRoles s.discordId, .dmWelcome s.discordId]⟩
      else ⟨w.1, acc.effs⟩
  | some dbUser =>
    if dbUser.stripe_subscription_id.isNone && !(decide (s.subscriptionId = "")) then
      let w := updateUserSubscription dbFail acc.db s.discordId
        ⟨some s.customerId, some s.subscriptionId, s.status, some s.currentPeriodEnd⟩
      if s.status = .active then ⟨w.1, acc.effs ++ [.assignRoles s.discordId]⟩
      else ⟨w.1, acc.effs⟩
    else if !(decide (dbUser.subscription_status = s.status)) then
      let r := handleSubscriptionStatusChange dbFail acc.db s.discordId s.status
        (some s.currentPeriodEnd)
      ⟨r.db, acc.effs ++ r.effs⟩
    else acc

/-- Embedding of `checkAllSubscriptions` (the slow sweep): fetch the
provider page, walk it against the `fetchAllUsers` snapshot, then run the
legacy-expiry pass.  `getAllActiveSubscriptions` never throws, so the
outer `try/catch` never fires in the model. -/
def checkAllSubscriptions (dbFail : Bool) (now : Int) (p : ProviderState)
    (users : UserOracle) (db : Db) : DbEff :=
  let stripeSubs := getAllActiveSubscriptions p
  let r := stripeSubs.foldl (checkAllStep dbFail users db) ⟨db, []⟩
  let l := checkLegacyUserExpiry dbFail now r.db
  ⟨l.db, r.effs ++ l.effs⟩

/-- Discord role ids, as strings (snowflakes). -/
abbrev RoleId := String

/-- Role constant `ROLES.ENGLISH` from `constants/roles.js`. -/
def ROLES_ENGLISH : RoleId := "1409879924180783225"

/-- Role constant `ROLES.BOSNIAN_CROATIAN_SERBIAN`. -/
def ROLES_BCS : RoleId := "1409880194424115260"

/-- Role constant `ROLES.ENGLISH_MEMBER`. -/
def ROLES_ENGLISH_MEMBER : RoleId := "1409936166840696882"

/-- Role constant `ROLES.BOSNIAN_CROATIAN_SERBIAN_MEMBER`. -/
def ROLES_BCS_MEMBER : RoleId := "1409936218900267090"

/-- Role constant `ROLES.MEMBER` (legacy member role). -/
def ROLES_MEMBER : RoleId := "1409879830408859809"

/-- Role constant `ROLES.UNVERIFIED`. -/
def ROLES_UNVERIFIED : RoleId := "1409929646610583652"

/-- State of the main guild as read through the Discord client: the set of
roles existing in the guild (`guild.roles.cache`) and each member's role
set (`member.roles.cache`), keyed by member id.  A member id absent from
the list models `guild.members.fetch` resolving to `null` (user left the
guild). -/
structure GuildState where
  roleCache : Finset RoleId
  members : List (String × Finset RoleId)
deriving DecidableEq

/-- Fetch of one guild member's role set, `none` when the member is not in
the guild. -/
def findMember (g : GuildState) (discordId : String) : Option (Finset RoleId) :=
  (g.members.find? (fun p => p.1 = discordId)).map (fun p => p.2)

/-- Write-back of one member's role set after role mutations. -/
def updateMember (g : GuildState) (discordId : String) (roles : Finset RoleId) :
    GuildState :=
  { g with members := g.members.map (fun p => if p.1 = discordId then (p.1, roles) else p) }

/-- First sub-step of `assignSubscriptionRoles`: remove the unverified
role when it exists in the guild and the member holds it. -/
def stripUnverified (cache : Finset RoleId) (roles : Finset RoleId) : Finset RoleId :=
  if ROLES_UNVERIFIED ∈ cache ∧ ROLES_UNVERIFIED ∈ roles then
    roles.erase ROLES_UNVERIFIED
  else roles

/-- Member-role resolution conditional of `assignSubscriptionRoles`: pick
the member role matching the language role held, falling back to the
legacy member role; `guild.roles.cache.get` yields `none` when the role
does not exist in the guild. -/
def resolveMemberRole (cache : Finset RoleId) (roles1 : Finset RoleId) : Option RoleId :=
  if ROLES_ENGLISH ∈ roles1 then
    if ROLES_ENGLISH_MEMBER ∈ cache then some ROLES_ENGLISH_MEMBER else Option.none
  else if ROLES_BCS ∈ roles1 then
    if ROLES_BCS_MEMBER ∈ cache then some ROLES_BCS_MEMBER else Option.none
  else
    if ROLES_MEMBER ∈ cache then some ROLES_MEMBER else Option.none

/-- Role-set transformation performed by `assignSubscriptionRoles` on a
present member: remove `UNVERIFIED` when held (and the role exists in the
guild), resolve the member role from the language role held, and add it
when it exists in the guild and is not already held. -/
def assignRolesSet (cache : Finset RoleId) (roles : Finset RoleId) : Finset RoleId :=
  match resolveMemberRole cache (stripUnverified cache roles) with
  | some r =>
    if r ∉ stripUnverified cache roles then insert r (stripUnverified cache roles)
    else stripUnverified cache roles
  | Option.none => stripUnverified cache roles

/-- One iteration of the member-role removal loop of
`removeSubscriptionRoles`: remove the role when the member holds it and it
exists in the guild. -/
def eraseHeldRole (cache : Finset RoleId) (rs : Finset RoleId) (roleId : RoleId) :
    Finset RoleId :=
  if roleId ∈ rs ∧ roleId ∈ cache then rs.erase roleId else rs

/-- The member-role removal loop of `removeSubscriptionRoles` over
`[MEMBER, ENGLISH_MEMBER, BOSNIAN_CROATIAN_SERBIAN_MEMBER]`. -/
def removeMemberRoles (cache : Finset RoleId) (roles : Finset RoleId) : Finset RoleId :=
  [ROLES_MEMBER, ROLES_ENGLISH_MEMBER, ROLES_BCS_MEMBER].foldl (eraseHeldRole cache) roles

/-- Role-set transformation performed by `removeSubscriptionRoles` on a
present member: remove each of the three member roles that is held (and
exists in the guild), then add `UNVERIFIED` when it exists and is not
held. -/
def removeRolesSet (cache : Finset RoleId) (roles : Finset RoleId) : Finset RoleId :=
  if ROLES_UNVERIFIED ∈ cache ∧ ROLES_UNVERIFIED ∉ removeMemberRoles cache roles then
    insert ROLES_UNVERIFIED (removeMemberRoles cache roles)
  else removeMemberRoles cache roles

/-- Embedding of `assignSubscriptionRoles` (the dispatcher's grant path):
a missing member is a logged no-op (the source returns after the failed
fetch; every path is inside `try/catch`, so the call never throws). -/
def assignSubscriptionRoles (g : GuildState) (discordId : String) : GuildState :=
  match findMember g discordId with
  | Option.none => g
  | some roles => updateMember g discordId (assignRolesSet g.roleCache roles)

/-- Embedding of `removeSubscriptionRoles` (the dispatcher's revoke path):
a missing member is a logged no-op, as for the grant path. -/
def removeSubscriptionRoles (g : GuildState) (discordId : String) : GuildState :=
  match findMember g discordId with
  | Option.none => g
  | some roles => updateMember g discordId (removeRolesSet g.roleCache roles)

/-- Modelled from the spec: the states of a persisted `MigrationFlag`
(`name`, `state` in the set of absent, in_progress and completed).  The
store behind `database.getResetFlag` / `database.setResetFlag` /
`database.ensureBotStateTable` is not part of the sources under `src`;
only its callers are. -/
inductive FlagState where
  | absent
  | in_progress
  | completed
deriving DecidableEq, Repr

/-- Modelled from the spec: the persisted store backing `getFlag(name)` /
`setFlag(name, state)` — a durable key-value map from operation name to
flag state. -/
abbrev FlagStore := List (String × FlagState)

/-- Modelled from the spec: `getFlag(name)` — an operation with no stored
flag reads as absent. -/
def getResetFlag (flags : FlagStore) (name : String) : FlagState :=
  ((flags.find? (fun p => p.1 = name)).map (fun p => p.2)).getD .absent

/-- Modelled from the spec: `setFlag(name, state)` — upsert of the named
flag. -/
def setResetFlag (flags : FlagStore) (name : String) (st : FlagState) : FlagStore :=
  if flags.any (fun p => decide (p.1 = name)) then
    flags.map (fun p => if p.1 = name then (p.1, st) else p)
  else flags ++ [(name, st)]

/-- Modelled from the spec: `database.resetUserSubscriptionData` (not under
`src`) — the reset operation resets the persisted record: status back to
`none`, billing linkage and period end cleared. -/
def resetUserSubscriptionData (db : Db) (discordId : String) : Db :=
  db.map (fun u =>
    if u.discord_id = discordId then
      { u with
        stripe_customer_id := Option.none
        stripe_subscription_id := Option.none
        subscription_status := .none
        subscription_ends_at := Option.none }
    else u)

/-- Side effects dispatched by the two reset services. -/
inductive ResetEffect where
  | cancelStripeSub (subscriptionId : String)
  | removeRolesCall (discordId : String)
  | resetDbData (discordId : String)
  | dmReset (discordId : String)
  | logAbortCompleted
  | removeRole (discordId : String) (roleId : RoleId)
  | addUnverified (discordId : String)
  | deleteDbUser (discordId : String)
deriving DecidableEq, Repr

/-- Per-user steps of the scheduled reset, used to inject step failures. -/
inductive ResetStep where
  | cancelStripe
  | removeRoles
  | resetDb
  | sendDm
deriving DecidableEq, Repr

/-- Failure oracle for the scheduled reset: which per-user step throws for
which Discord id. -/
abbrev ResetFailure := String → ResetStep → Bool

/-- Flag name of the scheduled one-time reset
(`subscription_reset_2026_03_01`). -/
def RESET_FLAG_NAME : String := "subscription_reset_2026_03_01"

/-- Result of the scheduled `executeReset`: flag store and table after the
run, dispatched effects, and the logged success/error counts. -/
structure ScheduledResetResult where
  flags : FlagStore
  db : Db
  effs : List ResetEffect
  successCount : Nat
  errorCount : Nat
deriving DecidableEq, Repr

/-- Per-user body of the scheduled `executeReset` loop: cancel the Stripe
subscription when linked, remove roles, reset the persisted record, DM —
each in its own `try/catch`, so a step failure is logged and the next step
still runs; since every step is caught, the per-user catch that increments
`errorCount` is unreachable and `successCount` always increments. -/
def scheduledResetStep (f : ResetFailure) (acc : Db × List ResetEffect × Nat × Nat)
    (u : DbUser) : Db × List ResetEffect × Nat × Nat :=
  let (db, effs, sc, ec) := acc
  let effs :=
    match u.stripe_subscription_id with
    | some sid =>
      if f u.discord_id .cancelStripe then effs else effs ++ [.cancelStripeSub sid]
    | Option.none => effs
  let effs :=
    if f u.discord_id .removeRoles then effs else effs ++ [.removeRolesCall u.discord_id]
  let (db, effs) :=
    if f u.discord_id .resetDb then (db, effs)
    else (resetUserSubscriptionData db u.discord_id, effs ++ [.resetDbData u.discord_id])
  let effs :=
    if f u.discord_id .sendDm then effs else effs ++ [.dmReset u.discord_id]
  (db, effs, sc + 1, ec)

/-- Embedding of the scheduled one-time `executeReset` (the service whose
`scheduleReset` arms it at the absolute target timestamp): re-read the
flag immediately before acting and abort as a logged no-op when completed;
otherwise mark in_progress, walk the active subscribers with per-step
`try/catch`, and finally write completed regardless of per-item
failures. -/
def scheduledExecuteReset (f : ResetFailure) (flags : FlagStore) (db : Db) :
    ScheduledResetResult :=
  if getResetFlag flags RESET_FLAG_NAME = .completed then
    ⟨flags, db, [.logAbortCompleted], 0, 0⟩
  else
    let flags1 := setResetFlag flags RESET_FLAG_NAME .in_progress
    let activeUsers := getUsersWithActiveSubscriptions db
    if activeUsers.length = 0 then
      ⟨setResetFlag flags1 RESET_FLAG_NAME .completed, db, [], 0, 0⟩
    else
      let r := activeUsers.foldl (scheduledResetStep f) (db, [], 0, 0)
      ⟨setResetFlag flags1 RESET_FLAG_NAME .completed, r.1, r.2.1, r.2.2.1, r.2.2.2⟩

/-- Per-member steps of the on-demand admin reset
(`subscriptionReset.executeReset`), used to inject failures.  `dbLookup`
and `cancelStripe` failures are caught by inner `try/catch` blocks;
`removeRole` / `addUnverified` failures escape to the per-member catch;
`deleteDb` and `sendDm` failures are caught. -/
inductive AdminStep where
  | dbLookup
  | cancelStripe
  | removeRole
  | addUnverified
  | deleteDb
  | sendDm
deriving DecidableEq, Repr

/-- Failure oracle for the admin reset. -/
abbrev AdminFailure := String → AdminStep → Bool

/-- The `MEMBER_ROLE_IDS` array of `subscriptionReset.js`. -/
def MEMBER_ROLE_IDS : List RoleId := [ROLES_MEMBER, ROLES_ENGLISH_MEMBER, ROLES_BCS_MEMBER]

/-- Aggregate returned by the admin `executeReset`. -/
structure ResetCounts where
  successCount : Nat
  errorCount : Nat
  totalCount : Nat
deriving DecidableEq, Repr

/-- Members the admin reset targets: guild members holding any of the
three member roles (selected from the role cache, not from the DB). -/
def membersToReset (g : GuildState) : List (String × Finset RoleId) :=
  g.members.filter (fun p => MEMBER_ROLE_IDS.any (fun r => decide (r ∈ p.2)))

/-- Outcome of processing one member in the admin reset: table after the
member's steps, the member's role set after the role mutations, the
dispatched effects, and whether the per-member `try` completed without an
uncaught throw. -/
structure AdminMemberOutcome where
  db : Db
  roles : Finset RoleId
  effs : List ResetEffect
  ok : Bool
deriving DecidableEq

/-- Step 1 of the admin reset for one member: DB lookup and Stripe cancel,
each inside its own `try/catch` (a failure of either is logged and the
member's processing continues). -/
def adminCancelStep (f : AdminFailure) (id : String) (db : Db) : List ResetEffect :=
  if f id .dbLookup then []
  else
    match getUserByDiscordId db id with
    | some u =>
      match u.stripe_subscription_id with
      | some sid => if f id .cancelStripe then [] else [.cancelStripeSub sid]
      | Option.none => []
    | Option.none => []

/-- One iteration of the admin reset's member-role removal loop: an
injected `removeRole` failure throws on the first attempted removal and
the error (carrying the state reached so far) propagates past the
remaining iterations to the per-member catch. -/
def adminRoleRemoveStep (f : AdminFailure) (id : String) (cache : Finset RoleId)
    (acc : Except (Finset RoleId × List ResetEffect) (Finset RoleId × List ResetEffect))
    (roleId : RoleId) :
    Except (Finset RoleId × List ResetEffect) (Finset RoleId × List ResetEffect) :=
  match acc with
  | .error e => .error e
  | .ok (rs, es) =>
    if roleId ∈ rs ∧ roleId ∈ cache then
      if f id .removeRole then .error (rs, es)
      else .ok (rs.erase roleId, es ++ [.removeRole id roleId])
    else .ok (rs, es)

/-- Steps 4 and 5 of the admin reset for one member: delete the DB row
(`deleteUser` catches internally) and send the reset DM (caught); the
member then counts as a success. -/
def adminFinishMember (f : AdminFailure) (id : String) (db : Db) (rs : Finset RoleId)
    (es : List ResetEffect) : AdminMemberOutcome :=
  if f id .deleteDb then
    if f id .sendDm then ⟨db, rs, es, true⟩
    else ⟨db, rs, es ++ [.dmReset id], true⟩
  else
    if f id .sendDm then ⟨(deleteUser false db id).1, rs, es ++ [.deleteDbUser id], true⟩
    else ⟨(deleteUser false db id).1, rs, es ++ [.deleteDbUser id] ++ [.dmReset id], true⟩

/-- Per-member body of the admin `executeReset`: (1) DB lookup and Stripe
cancel, each inner-caught; (2) removal of every held member role — a
throw here escapes to the per-member catch, skipping the remaining steps;
(3) re-add `UNVERIFIED` — same; (4) delete the DB row; (5) reset DM. -/
def adminProcessMember (f : AdminFailure) (cache : Finset RoleId) (db : Db)
    (m : String × Finset RoleId) : AdminMemberOutcome :=
  match MEMBER_ROLE_IDS.foldl (adminRoleRemoveStep f m.1 cache)
      (.ok (m.2, adminCancelStep f m.1 db)) with
  | .error e => ⟨db, e.1, e.2, false⟩
  | .ok (rs, es) =>
    if ROLES_UNVERIFIED ∈ cache ∧ ROLES_UNVERIFIED ∉ rs then
      if f m.1 .addUnverified then ⟨db, rs, es, false⟩
      else adminFinishMember f m.1 db (insert ROLES_UNVERIFIED rs) (es ++ [.addUnverified m.1])
    else adminFinishMember f m.1 db rs es

/-- Result of the admin `executeReset`. -/
structure AdminResetResult where
  counts : ResetCounts
  effs : List ResetEffect
  db : Db
  guild : GuildState
deriving DecidableEq

/-- Loop body of the admin `executeReset` for one member: run the
per-member steps, write the member's mutated role set back, and count the
member as success or error depending on whether its `try` completed. -/
def adminResetStep (f : AdminFailure)
    (acc : Db × GuildState × List ResetEffect × Nat × Nat)
    (m : String × Finset RoleId) : Db × GuildState × List ResetEffect × Nat × Nat :=
  let o := adminProcessMember f acc.2.1.roleCache acc.1 m
  if o.ok then
    (o.db, updateMember acc.2.1 m.1 o.roles, acc.2.2.1 ++ o.effs,
      acc.2.2.2.1 + 1, acc.2.2.2.2)
  else
    (o.db, updateMember acc.2.1 m.1 o.roles, acc.2.2.1 ++ o.effs,
      acc.2.2.2.1, acc.2.2.2.2 + 1)

/-- Embedding of the on-demand admin `executeReset`
(`subscriptionReset.js`, invoked by the `/reset-all` command handler):
select the role-holding members, short-circuit when there are none, and
process each member with a per-member `try/catch` so one member's failure
never aborts the batch.  No persisted flag is consulted anywhere in this
path. -/
def adminExecuteReset (f : AdminFailure) (g : GuildState) (db : Db) : AdminResetResult :=
  if (membersToReset g).length = 0 then ⟨⟨0, 0, 0⟩, [], db, g⟩
  else
    let r := (membersToReset g).foldl (adminResetStep f) (db, g, [], 0, 0)
    ⟨⟨r.2.2.2.1, r.2.2.2.2, (membersToReset g).length⟩, r.2.2.1, r.1, r.2.1⟩

/-! ## Scheduler lifecycle lemmas -/

/-- Occupancy invariant of the fast timer: the interval handle exists iff
the pending-checkout map is non-empty. -/
def FastTimerInv (st : SchedulerState) : Prop :=
  st.fastTimer = Option.none ↔ st.pending = []

theorem stopFastPolling_pending (st : SchedulerState) (discordId : String) :
    (stopFastPolling st discordId).pending =
      st.pending.filter (fun q => !(decide (q.1 = discordId))) := by
  unfold stopFastPolling
  split <;> rfl

theorem stopFastPolling_empty_none (st : SchedulerState) (discordId : String)
    (h : (stopFastPolling st discordId).pending = []) :
    (stopFastPolling st discordId).fastTimer = Option.none := by
  rw [stopFastPolling_pending] at h
  unfold stopFastPolling
  split
  · rfl
  · rename_i hc
    rw [h] at hc
    simp only [List.length_nil, Bool.and_eq_true, decide_eq_true_eq, Bool.not_eq_true,
      not_and, forall_const] at hc
    have : st.fastTimer.isNone = true := by
      cases hft : st.fastTimer.isNone
      · exact absurd hft (by simpa using hc)
      · rfl
    simp [Option.isNone_iff_eq_none.mp this]

theorem stopFastPolling_inv (st : SchedulerState) (discordId : String)
    (h : FastTimerInv st) : FastTimerInv (stopFastPolling st discordId) := by
  constructor
  · intro hnone
    by_contra hne
    rw [stopFastPolling_pending] at hne
    unfold stopFastPolling at hnone
    split at hnone
    · rename_i hc
      simp only [Bool.and_eq_true, decide_eq_true_eq, List.length_eq_zero] at hc
      exact hne hc.1
    · rename_i hc
      have hp : st.pending = [] := h.mp hnone
      exact hne (by simp [hp])
  · intro hemp
    exact stopFastPolling_empty_none st discordId hemp

theorem foldl_stopFastPolling_inv (ids : List String) (st : SchedulerState)
    (h : FastTimerInv st) : FastTimerInv (ids.foldl stopFastPolling st) := by
  induction ids generalizing st with
  | nil => exact h
  | cons i ids ih => exact ih _ (stopFastPolling_inv st i h)

theorem checkPendingCheckouts_inv (dbFail : Bool) (now : Int) (sessions : SessionOracle)
    (users : UserOracle) (st : SchedulerState) (db : Db) (h : FastTimerInv st) :
    FastTimerInv (checkPendingCheckouts dbFail now sessions users st db).state := by
  unfold checkPendingCheckouts
  split
  · exact h
  · exact foldl_stopFastPolling_inv _ _ h

theorem mapSet_ne_nil (l : List (String × PendingCheckout)) (k : String)
    (v : PendingCheckout) : mapSet l k v ≠ [] := by
  unfold mapSet
  split
  · rename_i ha
    intro hm
    rw [List.map_eq_nil_iff] at hm
    simp [hm] at ha
  · simp

theorem triggerFastPolling_pending (st : SchedulerState) (discordId sessionId : String)
    (now : Int) :
    (triggerFastPolling st discordId sessionId now).pending =
      mapSet st.pending discordId ⟨sessionId, now⟩ := by
  unfold triggerFastPolling
  match hft : st.fastTimer with
  | some k => simp [hft]
  | Option.none => simp [hft, startFastPolling]

/-- C7: the fast timer starts exactly on a registration made while the
tracker was previously empty; a registration while it runs keeps the
existing interval handle and allocates no new timer id; a sweep on an
empty tracker is a no-op; after any sweep the occupancy invariant holds,
so in particular the timer is cleared by the same sweep that emptied the
tracker (whether the last entry left by confirmed payment or by expiry);
and registration preserves the invariant. -/
theorem fastTimer_lifecycle (st : SchedulerState) (h : FastTimerInv st) :
    (∀ discordId sessionId now, st.pending = [] →
        (triggerFastPolling st discordId sessionId now).fastTimer = some st.nextTimerId) ∧
    (∀ discordId sessionId now, st.pending ≠ [] →
        (triggerFastPolling st discordId sessionId now).fastTimer = st.fastTimer ∧
        (triggerFastPolling st discordId sessionId now).nextTimerId = st.nextTimerId) ∧
    (∀ dbFail now sessions users db, st.pending = [] →
        checkPendingCheckouts dbFail now sessions users st db = ⟨st, db, []⟩) ∧
    (∀ dbFail now sessions users db,
        FastTimerInv (checkPendingCheckouts dbFail now sessions users st db).state ∧
        ((checkPendingCheckouts dbFail now sessions users st db).state.pending = [] →
          (checkPendingCheckouts dbFail now sessions users st db).state.fastTimer =
            Option.none)) ∧
    (∀ discordId sessionId now, FastTimerInv (triggerFastPolling st discordId sessionId now)) := by
  refine ⟨?_, ?_, ?_, ?_, ?_⟩
  · intro discordId sessionId now hp
    have hft : st.fastTimer = Option.none := h.mpr hp
    simp [triggerFastPolling, startFastPolling, hft]
  · intro discordId sessionId now hp
    have hft : st.fastTimer ≠ Option.none := fun hc => hp (h.mp hc)
    match hft2 : st.fastTimer with
    | Option.none => exact absurd hft2 hft
    | some k => simp [triggerFastPolling, hft2]
  · intro dbFail now sessions users db hp
    unfold checkPendingCheckouts
    simp [hp]
  · intro dbFail now sessions users db
    have hinv := checkPendingCheckouts_inv dbFail now sessions users st db h
    exact ⟨hinv, fun hp => hinv.mpr hp⟩
  · intro discordId sessionId now
    by_cases hp : st.pending = []
    · have hft : st.fastTimer = Option.none := h.mpr hp
      constructor
      · intro hc
        rw [triggerFastPolling] at hc
        simp only [hft] at hc
        simp [startFastPolling, hft] at hc
      · intro hc
        rw [triggerFastPolling_pending] at hc
        exact absurd hc (mapSet_ne_nil st.pending discordId ⟨sessionId, now⟩)
    · have hft : st.fastTimer ≠ Option.none := fun hc => hp (h.mp hc)
      match hft2 : st.fastTimer with
      | Option.none => exact absurd hft2 hft
      | some k =>
        constructor
        · intro hc
          simp [triggerFastPolling, hft2] at hc
        · intro hc
          rw [triggerFastPolling_pending] at hc
          exact absurd hc (mapSet_ne_nil st.pending discordId ⟨sessionId, now⟩)

/-- Witness for C7 at a concrete scheduler state. -/
theorem fastTimer_lifecycle_witness :
    (triggerFastPolling ⟨some 0, Option.none, 1, []⟩ "u1" "cs_1" 5).fastTimer = some 1 ∧
    checkPendingCheckouts false 5 (fun _ => .unpaid) (fun _ => Option.none)
        ⟨some 0, Option.none, 1, []⟩ [] = ⟨⟨some 0, Option.none, 1, []⟩, [], []⟩ := by
  have h := fastTimer_lifecycle ⟨some 0, Option.none, 1, []⟩ (by simp [FastTimerInv])
  exact ⟨h.1 "u1" "cs_1" 5 rfl, h.2.2.1 false 5 (fun _ => .unpaid) (fun _ => Option.none) [] rfl⟩

/-- C8: `startPolling` is idempotent — a second call while the slow
interval exists warns and changes nothing (same handle, no new timer id) —
and `stopPolling` clears the slow interval, the fast interval and the
pending-checkout map. -/
theorem startPolling_idempotent_stopPolling_clears (st : SchedulerState) :
    (∀ k, st.normalTimer = some k → startPolling st = st) ∧
    startPolling (startPolling st) = startPolling st ∧
    (stopPolling st).normalTimer = Option.none ∧
    (stopPolling st).fastTimer = Option.none ∧
    (stopPolling st).pending = [] := by
  refine ⟨?_, ?_, rfl, rfl, rfl⟩
  · intro k hk
    simp [startPolling, hk]
  · match hk : st.normalTimer with
    | some k => simp [startPolling, hk]
    | Option.none => simp [startPolling, hk]

/-- Witness for C8 at a concrete scheduler state. -/
theorem startPolling_idempotent_witness :
    startPolling ⟨some 3, Option.none, 4, []⟩ = ⟨some 3, Option.none, 4, []⟩ ∧
    (stopPolling ⟨some 3, some 1, 4, [("u", ⟨"s", 0⟩)]⟩).pending = [] := by
  exact ⟨(startPolling_idempotent_stopPolling_clears ⟨some 3, Option.none, 4, []⟩).1 3 rfl,
    (startPolling_idempotent_stopPolling_clears ⟨some 3, some 1, 4, [("u", ⟨"s", 0⟩)]⟩).2.2.2.2⟩

/-! ## Access Dispatcher idempotence -/

theorem insert_if_not_mem (r : RoleId) (t : Finset RoleId) :
    (if r ∉ t then insert r t else t) = insert r t := by
  split
  · rfl
  · rename_i hr
    rw [Finset.insert_eq_self.mpr (not_not.mp hr)]

theorem resolveMemberRole_shape (c t : Finset RoleId) (r : RoleId)
    (h : resolveMemberRole c t = some r) :
    (r = ROLES_ENGLISH_MEMBER ∨ r = ROLES_BCS_MEMBER ∨ r = ROLES_MEMBER) ∧ r ∈ c := by
  unfold resolveMemberRole at h
  split_ifs at h <;> simp_all

theorem resolveMemberRole_congr (c t t2 : Finset RoleId)
    (hE : ROLES_ENGLISH ∈ t ↔ ROLES_ENGLISH ∈ t2)
    (hB : ROLES_BCS ∈ t ↔ ROLES_BCS ∈ t2) :
    resolveMemberRole c t = resolveMemberRole c t2 := by
  unfold resolveMemberRole
  by_cases h1 : ROLES_ENGLISH ∈ t <;> by_cases h2 : ROLES_BCS ∈ t <;>
    simp_all

theorem stripUnverified_notMem (c s : Finset RoleId) (hc : ROLES_UNVERIFIED ∈ c) :
    ROLES_UNVERIFIED ∉ stripUnverified c s := by
  unfold stripUnverified
  split
  · exact Finset.not_mem_erase _ _
  · rename_i h
    exact fun hs => h ⟨hc, hs⟩

theorem stripUnverified_mem (c s : Finset RoleId) (x : RoleId)
    (hx : x ≠ ROLES_UNVERIFIED) : x ∈ stripUnverified c s ↔ x ∈ s := by
  unfold stripUnverified
  split
  · simp [Finset.mem_erase, hx]
  · exact Iff.rfl

theorem assignRolesSet_eq_insert (c s : Finset RoleId) :
    (∃ r, resolveMemberRole c (stripUnverified c s) = some r ∧
      assignRolesSet c s = insert r (stripUnverified c s)) ∨
    (resolveMemberRole c (stripUnverified c s) = Option.none ∧
      assignRolesSet c s = stripUnverified c s) := by
  unfold assignRolesSet
  match h : resolveMemberRole c (stripUnverified c s) with
  | some r => exact Or.inl ⟨r, rfl, insert_if_not_mem r _⟩
  | Option.none => exact Or.inr ⟨rfl, rfl⟩

theorem mem_assignRolesSet_of_ne (c s : Finset RoleId) (x : RoleId)
    (h1 : x ≠ ROLES_UNVERIFIED) (h2 : x ≠ ROLES_ENGLISH_MEMBER)
    (h3 : x ≠ ROLES_BCS_MEMBER) (h4 : x ≠ ROLES_MEMBER) :
    x ∈ assignRolesSet c s ↔ x ∈ s := by
  rcases assignRolesSet_eq_insert c s with ⟨r, hr, he⟩ | ⟨hr, he⟩
  · rw [he, Finset.mem_insert]
    have hs := (resolveMemberRole_shape c _ r hr).1
    have hxr : x ≠ r := by rcases hs with h | h | h <;> simp [h, h2, h3, h4]
    simp [hxr, stripUnverified_mem c s x h1]
  · rw [he]
    exact stripUnverified_mem c s x h1

theorem unverified_notMem_assignRolesSet (c s : Finset RoleId)
    (hc : ROLES_UNVERIFIED ∈ c) : ROLES_UNVERIFIED ∉ assignRolesSet c s := by
  rcases assignRolesSet_eq_insert c s with ⟨r, hr, he⟩ | ⟨hr, he⟩
  · rw [he, Finset.mem_insert]
    have hs := (resolveMemberRole_shape c _ r hr).1
    have hur : ROLES_UNVERIFIED ≠ r := by
      rcases hs with h | h | h <;> simp [h] <;> decide
    rintro (h | h)
    · exact hur h
    · exact stripUnverified_notMem c s hc h
  · rw [he]
    exact stripUnverified_notMem c s hc

theorem stripUnverified_assignRolesSet (c s : Finset RoleId) :
    stripUnverified c (assignRolesSet c s) = assignRolesSet c s := by
  unfold stripUnverified
  split
  · rename_i h
    exact absurd h.2 (unverified_notMem_assignRolesSet c s h.1)
  · rfl

theorem assignRolesSet_idem (c s : Finset RoleId) :
    assignRolesSet c (assignRolesSet c s) = assignRolesSet c s := by
  have hE : ROLES_ENGLISH ∈ assignRolesSet c s ↔ ROLES_ENGLISH ∈ s :=
    mem_assignRolesSet_of_ne c s _ (by decide) (by decide) (by decide) (by decide)
  have hB : ROLES_BCS ∈ assignRolesSet c s ↔ ROLES_BCS ∈ s :=
    mem_assignRolesSet_of_ne c s _ (by decide) (by decide) (by decide) (by decide)
  have hres : resolveMemberRole c (assignRolesSet c s) =
      resolveMemberRole c (stripUnverified c s) := by
    apply resolveMemberRole_congr
    · rw [stripUnverified_mem c _ _ (by decide)]
      exact hE
    · rw [stripUnverified_mem c _ _ (by decide)]
      exact hB
  rcases assignRolesSet_eq_insert c (assignRolesSet c s) with ⟨r, hr, he⟩ | ⟨hr, he⟩
  · rw [stripUnverified_assignRolesSet, hres] at hr
    rw [he, stripUnverified_assignRolesSet]
    rcases assignRolesSet_eq_insert c s with ⟨r2, hr2, he2⟩ | ⟨hr2, he2⟩
    · rw [hr2] at hr
      cases hr
      rw [he2, Finset.insert_idem]
    · rw [hr2] at hr
      cases hr
  · rw [he, stripUnverified_assignRolesSet]

theorem eraseHeldRole_notMem_self (c rs : Finset RoleId) (roleId : RoleId)
    (hc : roleId ∈ c) : roleId ∉ eraseHeldRole c rs roleId := by
  unfold eraseHeldRole
  split
  · exact Finset.not_mem_erase _ _
  · rename_i h
    exact fun hm => h ⟨hm, hc⟩

theorem eraseHeldRole_mem_of_ne (c rs : Finset RoleId) (roleId x : RoleId)
    (hx : x ≠ roleId) : x ∈ eraseHeldRole c rs roleId ↔ x ∈ rs := by
  unfold eraseHeldRole
  split
  · simp [Finset.mem_erase, hx]
  · exact Iff.rfl

theorem eraseHeldRole_of_notMem (c rs : Finset RoleId) (roleId : RoleId)
    (h : roleId ∉ rs) : eraseHeldRole c rs roleId = rs := by
  unfold eraseHeldRole
  split
  · rename_i hc
    exact absurd hc.1 h
  · rfl

theorem removeMemberRoles_notMem (c s : Finset RoleId) (roleId : RoleId)
    (hl : roleId ∈ MEMBER_ROLE_IDS) (hc : roleId ∈ c) :
    roleId ∉ removeMemberRoles c s := by
  have h1 : removeMemberRoles c s =
      eraseHeldRole c (eraseHeldRole c (eraseHeldRole c s ROLES_MEMBER)
        ROLES_ENGLISH_MEMBER) ROLES_BCS_MEMBER := rfl
  rw [h1]
  simp only [MEMBER_ROLE_IDS, List.mem_cons, List.not_mem_nil, or_false] at hl
  rcases hl with h | h | h
  · subst h
    rw [eraseHeldRole_mem_of_ne _ _ _ _ (by decide),
      eraseHeldRole_mem_of_ne _ _ _ _ (by decide)]
    exact eraseHeldRole_notMem_self c _ _ hc
  · subst h
    rw [eraseHeldRole_mem_of_ne _ _ _ _ (by decide)]
    exact eraseHeldRole_notMem_self c _ _ hc
  · subst h
    exact eraseHeldRole_notMem_self c _ _ hc

theorem mem_removeMemberRoles_of_ne (c s : Finset RoleId) (x : RoleId)
    (h1 : x ≠ ROLES_MEMBER) (h2 : x ≠ ROLES_ENGLISH_MEMBER) (h3 : x ≠ ROLES_BCS_MEMBER) :
    x ∈ removeMemberRoles c s ↔ x ∈ s := by
  have he : removeMemberRoles c s =
      eraseHeldRole c (eraseHeldRole c (eraseHeldRole c s ROLES_MEMBER)
        ROLES_ENGLISH_MEMBER) ROLES_BCS_MEMBER := rfl
  rw [he, eraseHeldRole_mem_of_ne _ _ _ _ h3, eraseHeldRole_mem_of_ne _ _ _ _ h2,
    eraseHeldRole_mem_of_ne _ _ _ _ h1]

theorem eraseHeldRole_skip (c rs : Finset RoleId) (roleId : RoleId)
    (h : roleId ∈ c → roleId ∉ rs) : eraseHeldRole c rs roleId = rs := by
  unfold eraseHeldRole
  split
  · rename_i hx
    exact absurd hx.1 (h hx.2)
  · rfl

theorem removeMemberRoles_of_all_out (c s : Finset RoleId)
    (h : ∀ roleId ∈ MEMBER_ROLE_IDS, roleId ∈ c → roleId ∉ s) :
    removeMemberRoles c s = s := by
  have he : removeMemberRoles c s =
      eraseHeldRole c (eraseHeldRole c (eraseHeldRole c s ROLES_MEMBER)
        ROLES_ENGLISH_MEMBER) ROLES_BCS_MEMBER := rfl
  rw [he, eraseHeldRole_skip c s ROLES_MEMBER (h ROLES_MEMBER (by simp [MEMBER_ROLE_IDS])),
    eraseHeldRole_skip c s ROLES_ENGLISH_MEMBER
      (h ROLES_ENGLISH_MEMBER (by simp [MEMBER_ROLE_IDS])),
    eraseHeldRole_skip c s ROLES_BCS_MEMBER (h ROLES_BCS_MEMBER (by simp [MEMBER_ROLE_IDS]))]

theorem removeRolesSet_idem (c s : Finset RoleId) :
    removeRolesSet c (removeRolesSet c s) = removeRolesSet c s := by
  have hout : ∀ roleId ∈ MEMBER_ROLE_IDS, roleId ∈ c → roleId ∉ removeRolesSet c s := by
    intro roleId hl hc
    have hnm := removeMemberRoles_notMem c s roleId hl hc
    unfold removeRolesSet
    split
    · rw [Finset.mem_insert]
      have hne : roleId ≠ ROLES_UNVERIFIED := by
        simp only [MEMBER_ROLE_IDS, List.mem_cons, List.not_mem_nil, or_false] at hl
        rcases hl with h | h | h <;> subst h <;> decide
      rintro (h | h)
      · exact hne h
      · exact hnm h
    · exact hnm
  have hrm : removeMemberRoles c (removeRolesSet c s) = removeRolesSet c s :=
    removeMemberRoles_of_all_out c _ hout
  have hgoal : removeRolesSet c (removeRolesSet c s) =
      if ROLES_UNVERIFIED ∈ c ∧
          ROLES_UNVERIFIED ∉ removeMemberRoles c (removeRolesSet c s) then
        insert ROLES_UNVERIFIED (removeMemberRoles c (removeRolesSet c s))
      else removeMemberRoles c (removeRolesSet c s) := rfl
  rw [hgoal, hrm]
  split
  · rename_i h
    -- UNVERIFIED in cache but not in removeRolesSet c s: contradiction with
    -- the first application having inserted it.
    exfalso
    rcases h with ⟨hc, hnm⟩
    apply hnm
    unfold removeRolesSet
    split
    · exact Finset.mem_insert_self _ _
    · rename_i h2
      rcases not_and_or.mp h2 with h2 | h2
      · exact absurd hc h2
      · exact not_not.mp h2
  · rfl

theorem find_map_update (l : List (String × Finset RoleId)) (id : String)
    (roles : Finset RoleId) :
    (l.map (fun p => if p.1 = id then (p.1, roles) else p)).find? (fun p => p.1 = id) =
      (l.find? (fun p => p.1 = id)).map (fun p => (p.1, roles)) := by
  induction l with
  | nil => rfl
  | cons a l ih =>
    by_cases h : a.1 = id
    · simp [List.find?, h]
    · simp [List.find?, h, ih]

theorem findMember_updateMember (g : GuildState) (id : String) (roles : Finset RoleId) :
    findMember (updateMember g id roles) id = (findMember g id).map (fun _ => roles) := by
  unfold findMember updateMember
  simp only [find_map_update]
  cases g.members.find? (fun p => p.1 = id) <;> simp

theorem updateMember_updateMember (g : GuildState) (id : String)
    (r r2 : Finset RoleId) :
    updateMember (updateMember g id r) id r2 = updateMember g id r2 := by
  unfold updateMember
  simp only [List.map_map]
  congr 1
  apply List.map_congr_left
  intro p _
  by_cases h : p.1 = id <;> simp [Function.comp, h]

theorem assignSubscriptionRoles_idem (g : GuildState) (id : String) :
    assignSubscriptionRoles (assignSubscriptionRoles g id) id =
      assignSubscriptionRoles g id := by
  match hm : findMember g id with
  | Option.none =>
    have h1 : assignSubscriptionRoles g id = g := by
      unfold assignSubscriptionRoles
      rw [hm]
    rw [h1, h1]
  | some roles =>
    have h1 : assignSubscriptionRoles g id = updateMember g id (assignRolesSet g.roleCache roles) := by
      unfold assignSubscriptionRoles
      rw [hm]
    have hcache : (assignSubscriptionRoles g id).roleCache = g.roleCache := by
      rw [h1]
      rfl
    have h2 : findMember (assignSubscriptionRoles g id) id =
        some (assignRolesSet g.roleCache roles) := by
      rw [h1, findMember_updateMember, hm]
      rfl
    set t := assignSubscriptionRoles g id with ht
    unfold assignSubscriptionRoles
    simp only [h2, hcache, assignRolesSet_idem]
    rw [h1, updateMember_updateMember]

theorem removeSubscriptionRoles_idem (g : GuildState) (id : String) :
    removeSubscriptionRoles (removeSubscriptionRoles g id) id =
      removeSubscriptionRoles g id := by
  match hm : findMember g id with
  | Option.none =>
    have h1 : removeSubscriptionRoles g id = g := by
      unfold removeSubscriptionRoles
      rw [hm]
    rw [h1, h1]
  | some roles =>
    have h1 : removeSubscriptionRoles g id = updateMember g id (removeRolesSet g.roleCache roles) := by
      unfold removeSubscriptionRoles
      rw [hm]
    have hcache : (removeSubscriptionRoles g id).roleCache = g.roleCache := by
      rw [h1]
      rfl
    have h2 : findMember (removeSubscriptionRoles g id) id =
        some (removeRolesSet g.roleCache roles) := by
      rw [h1, findMember_updateMember, hm]
      rfl
    set t := removeSubscriptionRoles g id with ht
    unfold removeSubscriptionRoles
    simp only [h2, hcache, removeRolesSet_idem]
    rw [h1, updateMember_updateMember]

/-- C6: the dispatcher's grant and revoke are idempotent on the resulting
guild role state — applying either twice in sequence equals applying it
once, because the member role is added only when not already held and the
unverified marker is removed (resp. re-added) only when present (resp.
absent) — and a missing guild member makes both a no-op success. -/
theorem grant_revoke_idempotent (g : GuildState) (discordId : String) :
    assignSubscriptionRoles (assignSubscriptionRoles g discordId) discordId =
      assignSubscriptionRoles g discordId ∧
    removeSubscriptionRoles (removeSubscriptionRoles g discordId) discordId =
      removeSubscriptionRoles g discordId ∧
    (findMember g discordId = Option.none →
      assignSubscriptionRoles g discordId = g ∧ removeSubscriptionRoles g discordId = g) := by
  refine ⟨assignSubscriptionRoles_idem g discordId,
    removeSubscriptionRoles_idem g discordId, fun hm => ⟨?_, ?_⟩⟩
  · unfold assignSubscriptionRoles
    rw [hm]
  · unfold removeSubscriptionRoles
    rw [hm]

/-- Witness for C6: a guild with one member holding the English language
role and the unverified marker; the id "gone" is not a member. -/
theorem grant_revoke_idempotent_witness :
    assignSubscriptionRoles
        (assignSubscriptionRoles
          ⟨{ROLES_ENGLISH_MEMBER, ROLES_UNVERIFIED},
            [("u1", {ROLES_ENGLISH, ROLES_UNVERIFIED})]⟩ "u1") "u1" =
      assignSubscriptionRoles
        ⟨{ROLES_ENGLISH_MEMBER, ROLES_UNVERIFIED},
          [("u1", {ROLES_ENGLISH, ROLES_UNVERIFIED})]⟩ "u1" ∧
    assignSubscriptionRoles
        ⟨{ROLES_ENGLISH_MEMBER, ROLES_UNVERIFIED},
          [("u1", {ROLES_ENGLISH, ROLES_UNVERIFIED})]⟩ "gone" =
      ⟨{ROLES_ENGLISH_MEMBER, ROLES_UNVERIFIED},
        [("u1", {ROLES_ENGLISH, ROLES_UNVERIFIED})]⟩ := by
  constructor
  · exact (grant_revoke_idempotent
      ⟨{ROLES_ENGLISH_MEMBER, ROLES_UNVERIFIED},
        [("u1", {ROLES_ENGLISH, ROLES_UNVERIFIED})]⟩ "u1").1
  · exact ((grant_revoke_idempotent
      ⟨{ROLES_ENGLISH_MEMBER, ROLES_UNVERIFIED},
        [("u1", {ROLES_ENGLISH, ROLES_UNVERIFIED})]⟩ "gone").2.2 (by decide)).1

/-! ## Status-change transition table -/

/-- Stored record with status `canceled`, used to exercise the
status-change path on a transition whose old status is not `past_due`. -/
def c2User : DbUser :=
  ⟨"u1", "tag", "", "", "", Option.none, Option.none, some "cus_1", some "sub_1",
    .canceled, some 100, false⟩

/-- Counterexample to C2 as stated: on the transition canceled → active
(old status not `past_due`), the code dispatches the "restored"
(reactivation) notification, not a "welcome" notification gated on
first-ever grant. -/
theorem status_change_restored_counterexample :
    c2User.subscription_status = SubStatus.canceled ∧
    SubStatus.canceled ≠ SubStatus.past_due ∧
    (handleSubscriptionStatusChange false [c2User] "u1" .active (some 200)).effs =
      [.assignRoles "u1", .dmActivated "u1"] ∧
    Effect.dmWelcome "u1" ∉
      (handleSubscriptionStatusChange false [c2User] "u1" .active (some 200)).effs := by
  decide

/-- C2 (amended): on a status change, entry to `active` grants privileges
and always sends the "restored" notification, regardless of the old
status (no "welcome" notification is ever sent by this path); entry to
`past_due` changes no privileges and sends the payment-failed warning;
entry to `canceled` or `unpaid` revokes privileges and sends the "ended"
notification; entry to `trialing` changes no privileges and only logs. -/
theorem status_change_transition_table (dbFail : Bool) (db : Db) (discordId : String)
    (newStatus : SubStatus) (pe : Option Int) :
    (newStatus = .active →
      (handleSubscriptionStatusChange dbFail db discordId newStatus pe).effs =
        [.assignRoles discordId, .dmActivated discordId]) ∧
    (newStatus = .past_due →
      (handleSubscriptionStatusChange dbFail db discordId newStatus pe).effs =
        [.dmPaymentFailed discordId]) ∧
    (newStatus = .canceled ∨ newStatus = .unpaid →
      (handleSubscriptionStatusChange dbFail db discordId newStatus pe).effs =
        [.removeRoles discordId, .dmSubscriptionEnded discordId newStatus]) ∧
    (newStatus = .trialing →
      (handleSubscriptionStatusChange dbFail db discordId newStatus pe).effs =
        [.logTrialing discordId]) ∧
    (∀ d, Effect.dmWelcome d ∉
      (handleSubscriptionStatusChange dbFail db discordId newStatus pe).effs) := by
  cases newStatus <;>
    simp [handleSubscriptionStatusChange]

/-- Witness for C2 (amended) at concrete transitions. -/
theorem status_change_transition_table_witness :
    (handleSubscriptionStatusChange false [c2User] "u1" .active (some 200)).effs =
      [.assignRoles "u1", .dmActivated "u1"] ∧
    (handleSubscriptionStatusChange false [c2User] "u1" .unpaid (some 200)).effs =
      [.removeRoles "u1", .dmSubscriptionEnded "u1" .unpaid] := by
  exact ⟨(status_change_transition_table false [c2User] "u1" .active (some 200)).1 rfl,
    (status_change_transition_table false [c2User] "u1" .unpaid (some 200)).2.2.1 (Or.inr rfl)⟩

/-- C9: the entitlement-store update catches a thrown driver error and
returns `false`, returns `false` when no record matches the identity, and
the status-change path dispatches the same role mutation and notification
whatever the persist outcome (failure injected or not, any table). -/
theorem persist_failure_not_suppressing (db db2 : Db) (discordId : String)
    (d : SubscriptionUpdate) (newStatus : SubStatus) (pe : Option Int)
    (dbFail dbFail2 : Bool) :
    updateUserSubscriptionQuery true db discordId d = .error "db error" ∧
    updateUserSubscription true db discordId d = (db, false) ∧
    (getUserByDiscordId db discordId = Option.none →
      updateUserSubscription false db discordId d = (db, false)) ∧
    (handleSubscriptionStatusChange dbFail db discordId newStatus pe).effs =
      (handleSubscriptionStatusChange dbFail2 db2 discordId newStatus pe).effs := by
  refine ⟨rfl, rfl, fun hn => ?_, ?_⟩
  · have hall : ∀ u ∈ db, ¬(u.discord_id = discordId) := by
      intro u hu
      have := List.find?_eq_none.mp hn u hu
      simpa using this
    have hcount : db.countP (fun u => decide (u.discord_id = discordId)) = 0 := by
      rw [List.countP_eq_zero]
      intro u hu
      simpa using hall u hu
    have hmap : db.map
        (fun u => if u.discord_id = discordId then applySubscriptionUpdate d u else u) = db := by
      conv_rhs => rw [show db = db.map id from (List.map_id db).symm]
      apply List.map_congr_left
      intro u hu
      simp [hall u hu]
    unfold updateUserSubscription updateUserSubscriptionQuery
    simp [hmap, hcount]
  · cases newStatus <;> rfl

/-- Witness for C9: empty table (no record matches) and a concrete
transition. -/
theorem persist_failure_not_suppressing_witness :
    updateUserSubscription true [] "u1" ⟨Option.none, Option.none, .active, Option.none⟩ =
      ([], false) ∧
    updateUserSubscription false [] "u1" ⟨Option.none, Option.none, .active, Option.none⟩ =
      ([], false) ∧
    (handleSubscriptionStatusChange true [] "u1" .unpaid (some 5)).effs =
      (handleSubscriptionStatusChange false [c2User] "u1" .unpaid (some 5)).effs := by
  have h := persist_failure_not_suppressing [] [c2User] "u1"
    ⟨Option.none, Option.none, .active, Option.none⟩ .unpaid (some 5) true false
  exact ⟨h.2.1, h.2.2.1 rfl, h.2.2.2⟩

/-! ## Legacy-expiry pass -/

/-- Row transformation persisted by the legacy-expiry pass: status
`canceled`, period end stamped with the sweep time, billing linkage kept
by COALESCE. -/
def legacyTransition (now : Int) (u : DbUser) : DbUser :=
  applySubscriptionUpdate ⟨Option.none, Option.none, .canceled, some now⟩ u

/-- Selection condition under which the legacy-expiry pass transitions a
row: a legacy grant in status `trialing` **or `none`** whose period end is
set and elapsed. -/
def legacyCondition (now : Int) (u : DbUser) : Bool :=
  (u.is_legacy_user &&
    (decide (u.subscription_status = .trialing) || decide (u.subscription_status = .none))) &&
  legacyExpired now u

theorem legacyTransition_discord_id (now : Int) (u : DbUser) :
    (legacyTransition now u).discord_id = u.discord_id := rfl

theorem legacyTransition_idem (now : Int) (u : DbUser) :
    legacyTransition now (legacyTransition now u) = legacyTransition now u := rfl

theorem updateUserSubscription_db_map (db : Db) (id : String) (now : Int) :
    (updateUserSubscription false db id
      ⟨Option.none, Option.none, .canceled, some now⟩).1 =
      db.map (fun u => if u.discord_id = id then legacyTransition now u else u) := by
  unfold updateUserSubscription updateUserSubscriptionQuery
  simp only [if_neg (by simp : ¬(false = true))]
  split <;> rfl

theorem legacy_fold (now : Int) (L : List DbUser) (d : Db) (es : List Effect) :
    L.foldl (legacyStep false now) ⟨d, es⟩ =
      ⟨d.map (fun u =>
          if u.discord_id ∈ (L.filter (legacyExpired now)).map (fun v => v.discord_id) then
            legacyTransition now u
          else u),
        es ++ (L.filter (legacyExpired now)).flatMap
          (fun u => [.removeRoles u.discord_id, .dmLegacyExpiry u.discord_id])⟩ := by
  induction L generalizing d es with
  | nil =>
    simp only [List.foldl_nil, List.filter_nil, List.map_nil, List.not_mem_nil, if_false,
      List.flatMap_nil, List.append_nil]
    congr 1
    exact (List.map_id' d).symm ▸ rfl
  | cons a L ih =>
    by_cases he : legacyExpired now a
    · have hstep : legacyStep false now ⟨d, es⟩ a =
          ⟨d.map (fun u => if u.discord_id = a.discord_id then legacyTransition now u else u),
            es ++ [.removeRoles a.discord_id, .dmLegacyExpiry a.discord_id]⟩ := by
        unfold legacyStep
        rw [if_pos he]
        simp only [updateUserSubscription_db_map]
      rw [List.foldl_cons, hstep, ih]
      have hfil : (a :: L).filter (legacyExpired now) = a :: L.filter (legacyExpired now) := by
        simp [List.filter_cons, he]
      rw [hfil]
      congr 1
      · rw [List.map_map]
        apply List.map_congr_left
        intro u _
        simp only [Function.comp]
        by_cases hau : u.discord_id = a.discord_id <;>
          by_cases h2 : u.discord_id ∈
              (L.filter (legacyExpired now)).map (fun v => v.discord_id) <;>
          simp [hau, h2, legacyTransition_discord_id, legacyTransition_idem, List.mem_cons]
      · rw [List.flatMap_cons, List.append_assoc]
    · have hstep : legacyStep false now ⟨d, es⟩ a = ⟨d, es⟩ := by
        unfold legacyStep
        rw [if_neg he]
      rw [List.foldl_cons, hstep, ih]
      have hfil : (a :: L).filter (legacyExpired now) = L.filter (legacyExpired now) := by
        simp [List.filter_cons, he]
      rw [hfil]

/-- Legacy row in status `none` with an elapsed period end, exercising the
branch of `getLegacyUsers` that the spec omits. -/
def c4User : DbUser :=
  ⟨"u1", "tag", "", "", "", Option.none, Option.none, Option.none, Option.none,
    .none, some 0, true⟩

/-- Counterexample to C4 as stated: the pass also transitions a legacy
record in status `none` (not `trialing`) whose period end elapsed, so the
transitioned set is not exactly the `trialing` records. -/
theorem legacy_expiry_counterexample :
    c4User.subscription_status ≠ SubStatus.trialing ∧
    (checkLegacyUserExpiry false 10 [c4User]).db =
      [{ c4User with subscription_status := .canceled, subscription_ends_at := some 10 }] ∧
    Effect.removeRoles "u1" ∈ (checkLegacyUserExpiry false 10 [c4User]).effs ∧
    Effect.dmLegacyExpiry "u1" ∈ (checkLegacyUserExpiry false 10 [c4User]).effs := by
  decide

/-- C4 (amended): on a table with unique identities, the legacy-expiry
pass transitions exactly those records with `isLegacyGrant = true` and
status `trialing` **or `none`** whose period end is set and elapsed — each
becomes `canceled` (period end stamped to the sweep time) and gets a
revoke and an expiry notification — while every other record, in
particular a legacy trialing record whose period end lies in the future,
is left unchanged. -/
theorem legacy_expiry_pass (now : Int) (db : Db)
    (hN : (db.map (fun u => u.discord_id)).Nodup) :
    (checkLegacyUserExpiry false now db).db =
      db.map (fun u => if legacyCondition now u then legacyTransition now u else u) ∧
    (∀ u ∈ db, legacyCondition now u = true →
      Effect.removeRoles u.discord_id ∈ (checkLegacyUserExpiry false now db).effs ∧
      Effect.dmLegacyExpiry u.discord_id ∈ (checkLegacyUserExpiry false now db).effs) := by
  have hmem : ∀ u ∈ db,
      (u.discord_id ∈ ((getLegacyUsers db).filter (legacyExpired now)).map
        (fun v => v.discord_id) ↔ legacyCondition now u = true) := by
    intro u hu
    constructor
    · intro h
      rcases List.mem_map.mp h with ⟨v, hv, hid⟩
      rcases List.mem_filter.mp hv with ⟨hv1, hv2⟩
      rcases List.mem_filter.mp hv1 with ⟨hv3, hv4⟩
      have hvu : v = u := List.inj_on_of_nodup_map hN hv3 hu hid
      subst hvu
      unfold legacyCondition
      rw [Bool.and_eq_true]
      exact ⟨hv4, hv2⟩
    · intro h
      unfold legacyCondition at h
      rw [Bool.and_eq_true] at h
      apply List.mem_map.mpr
      refine ⟨u, List.mem_filter.mpr ⟨List.mem_filter.mpr ⟨hu, h.1⟩, h.2⟩, rfl⟩
  unfold checkLegacyUserExpiry
  rw [legacy_fold]
  constructor
  · apply List.map_congr_left
    intro u hu
    by_cases hc : legacyCondition now u = true
    · rw [if_pos ((hmem u hu).mpr hc), if_pos hc]
    · rw [if_neg (fun hm => hc ((hmem u hu).mp hm)), if_neg hc]
  · intro u hu hcond
    have humem : u ∈ (getLegacyUsers db).filter (legacyExpired now) := by
      unfold legacyCondition at hcond
      rw [Bool.and_eq_true] at hcond
      exact List.mem_filter.mpr ⟨List.mem_filter.mpr ⟨hu, hcond.1⟩, hcond.2⟩
    constructor
    · simp only [List.nil_append]
      exact List.mem_flatMap.mpr ⟨u, humem, by simp⟩
    · simp only [List.nil_append]
      exact List.mem_flatMap.mpr ⟨u, humem, by simp⟩

/-- Expired legacy trialing row used by the C4 witness. -/
def w4a : DbUser :=
  ⟨"w1", "t", "", "", "", Option.none, Option.none, Option.none, Option.none,
    .trialing, some 3, true⟩

/-- Future-dated legacy trialing row used by the C4 witness. -/
def w4b : DbUser :=
  ⟨"w2", "t", "", "", "", Option.none, Option.none, Option.none, Option.none,
    .trialing, some 99, true⟩

/-- Witness for C4 (amended): one expired legacy trialing row and one
future-dated one; only the first transitions. -/
theorem legacy_expiry_pass_witness :
    (checkLegacyUserExpiry false 10 [w4a, w4b]).db =
      [⟨"w1", "t", "", "", "", Option.none, Option.none, Option.none, Option.none,
          .canceled, some 10, true⟩, w4b] ∧
    Effect.removeRoles "w1" ∈ (checkLegacyUserExpiry false 10 [w4a, w4b]).effs := by
  have h := legacy_expiry_pass 10 [w4a, w4b] (by decide)
  refine ⟨?_, (h.2 w4a (by simp) (by decide)).1⟩
  rw [h.1]
  decide

/-! ## Slow-sweep page bound and listing-error behaviour -/

theorem listSubsStep_fold_length (l : List StripeSubData) (acc : List SubInfo) :
    (l.foldl listSubsStep acc).length ≤ acc.length + l.length := by
  induction l generalizing acc with
  | nil => simp
  | cons a l ih =>
    rw [List.foldl_cons]
    have hstep : (listSubsStep acc a).length ≤ acc.length + 1 := by
      unfold listSubsStep
      match a.metadataDiscordId with
      | some d => simp
      | Option.none => simp
    have h1 := ih (listSubsStep acc a)
    have h2 : (a :: l).length = l.length + 1 := by simp
    omega

/-- C10: one slow sweep reconciles at most 100 provider subscriptions —
the provider listing is a single page of limit 100 with no pagination —
and a listing error yields the empty list, so such a tick reconciles no
subscriptions and reduces to the legacy-expiry pass instead of
propagating the error. -/
theorem slow_sweep_bounded (p : ProviderState) (users : UserOracle) (db : Db) (now : Int) :
    (getAllActiveSubscriptions p).length ≤ 100 ∧
    (p.listError = true →
      getAllActiveSubscriptions p = [] ∧
      checkAllSubscriptions false now p users db = checkLegacyUserExpiry false now db) := by
  constructor
  · unfold getAllActiveSubscriptions
    split
    · simp
    · have h1 := listSubsStep_fold_length (p.subs.take 100) []
      have h2 : (p.subs.take 100).length ≤ 100 := List.length_take_le 100 p.subs
      simpa using le_trans h1 (by simpa using h2)
  · intro herr
    have hemp : getAllActiveSubscriptions p = [] := by
      unfold getAllActiveSubscriptions
      rw [if_pos herr]
    refine ⟨hemp, ?_⟩
    unfold checkAllSubscriptions
    rw [hemp]
    simp only [List.foldl_nil, List.nil_append]

/-- Witness for C10: a failing provider with three listed subscriptions
still reconciles nothing and only runs the legacy pass. -/
theorem slow_sweep_bounded_witness :
    getAllActiveSubscriptions ⟨[⟨"s1", some "u1", .active, 0, false, "c1"⟩], true⟩ = [] ∧
    checkAllSubscriptions false 10 ⟨[⟨"s1", some "u1", .active, 0, false, "c1"⟩], true⟩
        (fun _ => Option.none) [c2User] =
      checkLegacyUserExpiry false 10 [c2User] := by
  have h := (slow_sweep_bounded ⟨[⟨"s1", some "u1", .active, 0, false, "c1"⟩], true⟩
    (fun _ => Option.none) [c2User] 10).2 rfl
  exact h

/-! ## Fast sweep over pending checkouts -/

/-- Expiry test of the fast sweep for one entry: elapsed time since
registration strictly exceeds `fastDuration`. -/
def entryExpired (now : Int) (p : String × PendingCheckout) : Bool :=
  decide (now - p.2.createdAt > fastDuration)

/-- Whether the provider reports the entry's checkout session as paid. -/
def entryPaid (sessions : SessionOracle) (p : String × PendingCheckout) : Bool :=
  match sessions p.2.sessionId with
  | .paid _ => true
  | _ => false

/-- Whether the sweep drops the entry from the tracker (expired or paid). -/
def removesEntry (now : Int) (sessions : SessionOracle) (p : String × PendingCheckout) :
    Bool :=
  entryExpired now p || entryPaid sessions p

/-- Effects the sweep dispatches for one entry: nothing for an expired
entry (dropped before any provider query), the provider query plus the
new-subscription dispatch for a paid one, only the provider query
otherwise. -/
def perEntryEffects (now : Int) (sessions : SessionOracle) (p : String × PendingCheckout) :
    List Effect :=
  if entryExpired now p then []
  else
    match sessions p.2.sessionId with
    | .paid s =>
      [.queryCheckoutSession p.2.sessionId, .assignRoles s.discordId, .dmWelcome s.discordId]
    | _ => [.queryCheckoutSession p.2.sessionId]

/-- Table transformation the sweep applies for one entry: only a paid
entry runs `processNewSubscription`. -/
def pendingDbStep (dbFail : Bool) (users : UserOracle) (now : Int)
    (sessions : SessionOracle) (db : Db) (p : String × PendingCheckout) : Db :=
  if entryExpired now p then db
  else
    match sessions p.2.sessionId with
    | .paid s => (processNewSubscription dbFail users db s).db
    | _ => db

theorem checkPending_fold (dbFail : Bool) (now : Int) (sessions : SessionOracle)
    (users : UserOracle) (l : List (String × PendingCheckout)) (e0 : List String)
    (db0 : Db) (es0 : List Effect) :
    l.foldl (checkPendingStep dbFail now sessions users) (e0, db0, es0) =
      (e0 ++ (l.filter (removesEntry now sessions)).map (fun p => p.1),
       l.foldl (pendingDbStep dbFail users now sessions) db0,
       es0 ++ l.flatMap (perEntryEffects now sessions)) := by
  induction l generalizing e0 db0 es0 with
  | nil => simp
  | cons p l ih =>
    rw [List.foldl_cons, List.foldl_cons]
    by_cases he : entryExpired now p = true
    · have hprop : now - p.2.createdAt > fastDuration := by
        simpa [entryExpired] using he
      have hstep : checkPendingStep dbFail now sessions users (e0, db0, es0) p =
          (e0 ++ [p.1], db0, es0) := by
        simp only [checkPendingStep]
        rw [if_pos hprop]
      have hdb : pendingDbStep dbFail users now sessions db0 p = db0 := by
        unfold pendingDbStep
        rw [if_pos he]
      rw [hstep, hdb, ih]
      have hrem : removesEntry now sessions p = true := by
        simp [removesEntry, he]
      simp [List.filter_cons, hrem, List.flatMap_cons, perEntryEffects, he]
    · have hprop : ¬(now - p.2.createdAt > fastDuration) := by
        simpa [entryExpired] using he
      match hs : sessions p.2.sessionId with
      | .paid s =>
        have hstep : checkPendingStep dbFail now sessions users (e0, db0, es0) p =
            (e0 ++ [p.1], (processNewSubscription dbFail users db0 s).db,
              es0 ++ [.queryCheckoutSession p.2.sessionId] ++
                [.assignRoles s.discordId, .dmWelcome s.discordId]) := by
          simp only [checkPendingStep]
          rw [if_neg hprop, hs]
          rfl
        have hdb : pendingDbStep dbFail users now sessions db0 p =
            (processNewSubscription dbFail users db0 s).db := by
          unfold pendingDbStep
          rw [if_neg (by simpa [entryExpired] using hprop), hs]
        have hrem : removesEntry now sessions p = true := by
          simp [removesEntry, entryPaid, hs]
        have heff : perEntryEffects now sessions p =
            [.queryCheckoutSession p.2.sessionId, .assignRoles s.discordId,
              .dmWelcome s.discordId] := by
          unfold perEntryEffects
          rw [if_neg (by simpa [entryExpired] using hprop), hs]
        rw [hstep, ih, hdb]
        simp [List.filter_cons, hrem, List.flatMap_cons, heff]
      | .unpaid =>
        have hstep : checkPendingStep dbFail now sessions users (e0, db0, es0) p =
            (e0, db0, es0 ++ [.queryCheckoutSession p.2.sessionId]) := by
          simp only [checkPendingStep]
          rw [if_neg hprop, hs]
        have hdb : pendingDbStep dbFail users now sessions db0 p = db0 := by
          unfold pendingDbStep
          rw [if_neg (by simpa [entryExpired] using hprop), hs]
        have hrem : removesEntry now sessions p = false := by
          simp [removesEntry, entryPaid, hs, entryExpired]
          simpa [entryExpired] using hprop
        have heff : perEntryEffects now sessions p =
            [.queryCheckoutSession p.2.sessionId] := by
          unfold perEntryEffects
          rw [if_neg (by simpa [entryExpired] using hprop), hs]
        rw [hstep, ih, hdb]
        simp [List.filter_cons, hrem, List.flatMap_cons, heff]
      | .failure =>
        have hstep : checkPendingStep dbFail now sessions users (e0, db0, es0) p =
            (e0, db0, es0 ++ [.queryCheckoutSession p.2.sessionId]) := by
          simp only [checkPendingStep]
          rw [if_neg hprop, hs]
        have hdb : pendingDbStep dbFail users now sessions db0 p = db0 := by
          unfold pendingDbStep
          rw [if_neg (by simpa [entryExpired] using hprop), hs]
        have hrem : removesEntry now sessions p = false := by
          simp [removesEntry, entryPaid, hs, entryExpired]
          simpa [entryExpired] using hprop
        have heff : perEntryEffects now sessions p =
            [.queryCheckoutSession p.2.sessionId] := by
          unfold perEntryEffects
          rw [if_neg (by simpa [entryExpired] using hprop), hs]
        rw [hstep, ih, hdb]
        simp [List.filter_cons, hrem, List.flatMap_cons, heff]

theorem foldl_stopFastPolling_pending (ids : List String) (st : SchedulerState) :
    (ids.foldl stopFastPolling st).pending =
      st.pending.filter (fun q => !(decide (q.1 ∈ ids))) := by
  induction ids generalizing st with
  | nil => simp
  | cons i ids ih =>
    rw [List.foldl_cons, ih, stopFastPolling_pending, List.filter_filter]
    apply List.filter_congr
    intro q _
    simp [List.mem_cons, not_or, Bool.and_comm]

theorem getUser_map_isSome (db : Db) (id : String) (f : DbUser → DbUser)
    (hf : ∀ u, (f u).discord_id = u.discord_id) :
    (getUserByDiscordId (db.map f) id).isSome = (getUserByDiscordId db id).isSome := by
  unfold getUserByDiscordId
  induction db with
  | nil => rfl
  | cons a l ih =>
    rw [List.map_cons]
    by_cases h : a.discord_id = id
    · rw [List.find?_cons_of_pos _ (by simp [hf a, h]),
        List.find?_cons_of_pos _ (by simp [h])]
      rfl
    · rw [List.find?_cons_of_neg _ (by simp [hf a, h]),
        List.find?_cons_of_neg _ (by simp [h])]
      exact ih

theorem updateUserSubscription_fst (dbFail : Bool) (db : Db) (id : String)
    (d : SubscriptionUpdate) :
    (updateUserSubscription dbFail db id d).1 =
      if dbFail then db
      else db.map (fun u => if u.discord_id = id then applySubscriptionUpdate d u else u) := by
  unfold updateUserSubscription updateUserSubscriptionQuery
  cases dbFail
  · simp only [Bool.false_eq_true, if_false]
    split <;> rfl
  · rfl

theorem saveSubscriptionUser_fst (dbFail : Bool) (db : Db) (d : SaveSubscriptionData) :
    (saveSubscriptionUser dbFail db d).1 =
      if dbFail then db
      else if db.any (fun u => decide (u.discord_id = d.discordId)) then
        db.map (fun u => if u.discord_id = d.discordId then saveSubscriptionUpdateRow d u else u)
      else db ++ [saveSubscriptionRow d] := by
  unfold saveSubscriptionUser
  split_ifs <;> rfl

theorem processNew_db_presence_self (users : UserOracle) (db : Db) (s : PaidSessionData) :
    (getUserByDiscordId (processNewSubscription false users db s).db s.discordId).isSome =
      true := by
  unfold processNewSubscription
  match hfind : getUserByDiscordId db s.discordId with
  | some u =>
    simp only [updateUserSubscription_fst, Bool.false_eq_true, if_false]
    rw [getUser_map_isSome]
    · rw [hfind]
      rfl
    · intro v
      by_cases h : v.discord_id = s.discordId <;> simp [h, applySubscriptionUpdate]
  | Option.none =>
    simp only [saveSubscriptionUser_fst, Bool.false_eq_true, if_false]
    have hany : db.any (fun u => decide (u.discord_id = s.discordId)) = false := by
      rw [List.any_eq_false]
      intro u hu
      have := List.find?_eq_none.mp hfind u hu
      simpa using this
    rw [if_neg (by simp [hany])]
    unfold getUserByDiscordId at hfind ⊢
    rw [List.find?_append, hfind]
    simp [List.find?_cons, saveSubscriptionRow]

theorem processNew_db_presence_mono (dbFail : Bool) (users : UserOracle) (db : Db)
    (s : PaidSessionData) (i : String)
    (h : (getUserByDiscordId db i).isSome = true) :
    (getUserByDiscordId (processNewSubscription dbFail users db s).db i).isSome = true := by
  unfold processNewSubscription
  match hfind : getUserByDiscordId db s.discordId with
  | some u =>
    simp only [updateUserSubscription_fst]
    split
    · exact h
    · rw [getUser_map_isSome]
      · exact h
      · intro v
        by_cases hv : v.discord_id = s.discordId <;> simp [hv, applySubscriptionUpdate]
  | Option.none =>
    simp only [saveSubscriptionUser_fst]
    split
    · exact h
    · split
      · rw [getUser_map_isSome]
        · exact h
        · intro v
          by_cases hv : v.discord_id = s.discordId <;> simp [hv, saveSubscriptionUpdateRow]
      · unfold getUserByDiscordId at h ⊢
        rw [List.find?_append]
        match hf2 : db.find? (fun u => decide (u.discord_id = i)) with
        | some v =>
          rw [hf2]
          rfl
        | Option.none =>
          rw [hf2] at h
          simp at h

theorem pendingDbStep_presence (dbFail : Bool) (users : UserOracle) (now : Int)
    (sessions : SessionOracle) (db : Db) (p : String × PendingCheckout) (i : String)
    (h : (getUserByDiscordId db i).isSome = true) :
    (getUserByDiscordId (pendingDbStep dbFail users now sessions db p) i).isSome = true := by
  unfold pendingDbStep
  split
  · exact h
  · match sessions p.2.sessionId with
    | .paid s => exact processNew_db_presence_mono dbFail users db s i h
    | .unpaid => exact h
    | .failure => exact h

theorem foldl_pendingDbStep_presence (dbFail : Bool) (users : UserOracle) (now : Int)
    (sessions : SessionOracle) (l : List (String × PendingCheckout)) (db : Db) (i : String)
    (h : (getUserByDiscordId db i).isSome = true) :
    (getUserByDiscordId (l.foldl (pendingDbStep dbFail users now sessions) db) i).isSome =
      true := by
  induction l generalizing db with
  | nil => exact h
  | cons p l ih =>
    rw [List.foldl_cons]
    exact ih _ (pendingDbStep_presence dbFail users now sessions db p i h)

theorem sweep_db_presence (users : UserOracle) (now : Int) (sessions : SessionOracle)
    (l : List (String × PendingCheckout)) (db : Db) (p : String × PendingCheckout)
    (s : PaidSessionData) (hp : p ∈ l) (he : entryExpired now p = false)
    (hs : sessions p.2.sessionId = .paid s) :
    (getUserByDiscordId (l.foldl (pendingDbStep false users now sessions) db)
      s.discordId).isSome = true := by
  obtain ⟨l1, l2, rfl⟩ := List.append_of_mem hp
  rw [List.foldl_append, List.foldl_cons]
  apply foldl_pendingDbStep_presence
  have hstep : pendingDbStep false users now sessions
      (l1.foldl (pendingDbStep false users now sessions) db) p =
      (processNewSubscription false users
        (l1.foldl (pendingDbStep false users now sessions) db) s).db := by
    unfold pendingDbStep
    rw [if_neg (by simp [he]), hs]
  rw [hstep]
  exact processNew_db_presence_self users _ s

theorem foldl_pendingDbStep_id (dbFail : Bool) (users : UserOracle) (now : Int)
    (sessions : SessionOracle) (l : List (String × PendingCheckout)) (db : Db)
    (h : ∀ p ∈ l, entryPaid sessions p = false) :
    l.foldl (pendingDbStep dbFail users now sessions) db = db := by
  induction l generalizing db with
  | nil => rfl
  | cons p l ih =>
    rw [List.foldl_cons]
    have hstep : pendingDbStep dbFail users now sessions db p = db := by
      unfold pendingDbStep
      split
      · rfl
      · have hnp := h p (List.mem_cons_self p l)
        unfold entryPaid at hnp
        match hs : sessions p.2.sessionId with
        | .paid s => rw [hs] at hnp; simp at hnp
        | .unpaid => rfl
        | .failure => rfl
    rw [hstep]
    exact ih db (fun q hq => h q (List.mem_cons_of_mem p hq))

/-- C5: on each fast sweep, an entry past the 20-minute bound is dropped
from the tracker with no provider query and no table change from that
entry; an entry whose session the provider reports paid triggers the full
new-subscription transition (query, record present afterwards, privileges
granted, welcome notification) and is dropped; every other entry stays
tracked. -/
theorem pending_checkout_sweep (now : Int) (sessions : SessionOracle) (users : UserOracle)
    (st : SchedulerState) (db : Db)
    (hkeys : (st.pending.map (fun p => p.1)).Nodup) :
    (checkPendingCheckouts false now sessions users st db).state.pending =
      st.pending.filter (fun q => !(removesEntry now sessions q)) ∧
    (checkPendingCheckouts false now sessions users st db).effs =
      st.pending.flatMap (perEntryEffects now sessions) ∧
    (checkPendingCheckouts false now sessions users st db).db =
      st.pending.foldl (pendingDbStep false users now sessions) db ∧
    (∀ p ∈ st.pending, entryExpired now p = true →
      perEntryEffects now sessions p = [] ∧
      pendingDbStep false users now sessions db p = db ∧
      p.1 ∉ (checkPendingCheckouts false now sessions users st db).state.pending.map
        (fun q => q.1)) ∧
    (∀ p ∈ st.pending, ∀ s, entryExpired now p = false →
      sessions p.2.sessionId = .paid s →
      perEntryEffects now sessions p =
        [.queryCheckoutSession p.2.sessionId, .assignRoles s.discordId,
          .dmWelcome s.discordId] ∧
      p.1 ∉ (checkPendingCheckouts false now sessions users st db).state.pending.map
        (fun q => q.1) ∧
      (getUserByDiscordId ((checkPendingCheckouts false now sessions users st db).db)
        s.discordId).isSome = true) ∧
    (∀ p ∈ st.pending, removesEntry now sessions p = false →
      p ∈ (checkPendingCheckouts false now sessions users st db).state.pending) ∧
    ((∀ p ∈ st.pending, entryPaid sessions p = false) →
      (checkPendingCheckouts false now sessions users st db).db = db) := by
  have hinj : ∀ q ∈ st.pending, ∀ q2 ∈ st.pending, q.1 = q2.1 → q = q2 := by
    intro q hq q2 hq2 h
    exact List.inj_on_of_nodup_map hkeys hq hq2 h
  have hchar : (checkPendingCheckouts false now sessions users st db).state.pending =
        st.pending.filter (fun q => !(removesEntry now sessions q)) ∧
      (checkPendingCheckouts false now sessions users st db).effs =
        st.pending.flatMap (perEntryEffects now sessions) ∧
      (checkPendingCheckouts false now sessions users st db).db =
        st.pending.foldl (pendingDbStep false users now sessions) db := by
    unfold checkPendingCheckouts
    split
    · rename_i hlen
      have hemp : st.pending = [] := List.length_eq_zero.mp (by simpa using hlen)
      simp [hemp]
    · rw [checkPending_fold]
      refine ⟨?_, rfl, rfl⟩
      simp only
      rw [foldl_stopFastPolling_pending]
      apply List.filter_congr
      intro q hq
      have hmemids : q.1 ∈ [] ++ (st.pending.filter (removesEntry now sessions)).map
          (fun p => p.1) ↔ removesEntry now sessions q = true := by
        simp only [List.nil_append]
        constructor
        · intro h
          rcases List.mem_map.mp h with ⟨q2, hq2, hid⟩
          rcases List.mem_filter.mp hq2 with ⟨hq2m, hq2r⟩
          have := hinj q2 hq2m q hq (by rw [hid])
          subst this
          exact hq2r
        · intro h
          exact List.mem_map.mpr ⟨q, List.mem_filter.mpr ⟨hq, h⟩, rfl⟩
      cases hrem : removesEntry now sessions q
      · have hnot : q.1 ∉ [] ++ (st.pending.filter (removesEntry now sessions)).map
            (fun p => p.1) := fun hm => absurd (hmemids.mp hm) (by simp [hrem])
        rw [decide_eq_false hnot]
      · rw [decide_eq_true (hmemids.mpr hrem)]
  have hnotmem : ∀ p ∈ st.pending, removesEntry now sessions p = true →
      p.1 ∉ (checkPendingCheckouts false now sessions users st db).state.pending.map
        (fun q => q.1) := by
    intro p hp hrem hmem
    rw [hchar.1] at hmem
    rcases List.mem_map.mp hmem with ⟨q, hq, hid⟩
    rcases List.mem_filter.mp hq with ⟨hqm, hqr⟩
    have := hinj q hqm p hp hid
    subst this
    rw [hrem] at hqr
    simp at hqr
  refine ⟨hchar.1, hchar.2.1, hchar.2.2, ?_, ?_, ?_, ?_⟩
  · intro p hp he
    refine ⟨?_, ?_, hnotmem p hp (by simp [removesEntry, he])⟩
    · unfold perEntryEffects
      rw [if_pos he]
    · unfold pendingDbStep
      rw [if_pos he]
  · intro p hp s he hs
    refine ⟨?_, hnotmem p hp (by simp [removesEntry, entryPaid, hs]), ?_⟩
    · unfold perEntryEffects
      rw [if_neg (by simp [he]), hs]
    · rw [hchar.2.2]
      exact sweep_db_presence users now sessions st.pending db p s hp he hs
  · intro p hp hrem
    rw [hchar.1]
    exact List.mem_filter.mpr ⟨hp, by simp [hrem]⟩
  · intro hall
    rw [hchar.2.2]
    exact foldl_pendingDbStep_id false users now sessions st.pending db hall

/-- Session oracle for the C5 witness: only session "sB" is paid. -/
def w5Sessions : SessionOracle := fun sid =>
  if sid = "sB" then .paid ⟨"b", some "cus", some "e", "sub_b", .active, 99⟩ else .unpaid

/-- User oracle for the C5 witness. -/
def w5Users : UserOracle := fun _ => some "tag"

/-- Scheduler state for the C5 witness: entry "a" registered at 0 (expired
at sweep time 2000000), entry "b" registered at 1900000 with paid session
"sB". -/
def w5St : SchedulerState :=
  ⟨Option.none, some 5, 6, [("a", ⟨"sA", 0⟩), ("b", ⟨"sB", 1900000⟩)]⟩

/-- Witness for C5: the expired entry and the paid entry are both dropped,
only the paid entry queries the provider and dispatches the
new-subscription transition, and the paid user's record exists
afterwards. -/
theorem pending_checkout_sweep_witness :
    (checkPendingCheckouts false 2000000 w5Sessions w5Users w5St []).state.pending = [] ∧
    (checkPendingCheckouts false 2000000 w5Sessions w5Users w5St []).effs =
      [.queryCheckoutSession "sB", .assignRoles "b", .dmWelcome "b"] ∧
    (getUserByDiscordId (checkPendingCheckouts false 2000000 w5Sessions w5Users w5St []).db
      "b").isSome = true := by
  have h := pending_checkout_sweep 2000000 w5Sessions w5Users w5St [] (by decide)
  refine ⟨?_, ?_, ?_⟩
  · rw [h.1]
    decide
  · rw [h.2.1]
    decide
  · exact (h.2.2.2.2.1 ("b", ⟨"sB", 1900000⟩) (by decide)
      ⟨"b", some "cus", some "e", "sub_b", .active, 99⟩ (by decide) (by decide)).2.2

/-! ## Migration/Reset Guard -/

theorem find_set_map (l : List (String × FlagState)) (n : String) (st : FlagState)
    (hany : l.any (fun p => decide (p.1 = n)) = true) :
    ((l.map (fun p => if p.1 = n then (p.1, st) else p)).find?
      (fun p => decide (p.1 = n))).map (fun p => p.2) = some st := by
  induction l with
  | nil => simp at hany
  | cons a l ih =>
    rw [List.map_cons]
    by_cases h : a.1 = n
    · rw [if_pos h, List.find?_cons_of_pos _ (by simp [h])]
      rfl
    · rw [if_neg h, List.find?_cons_of_neg _ (by simp [h])]
      apply ih
      simpa [List.any_cons, h] using hany

theorem getResetFlag_setResetFlag (flags : FlagStore) (n : String) (st : FlagState) :
    getResetFlag (setResetFlag flags n st) n = st := by
  unfold setResetFlag
  split
  · rename_i hany
    unfold getResetFlag
    rw [find_set_map flags n st hany]
    rfl
  · rename_i hany
    unfold getResetFlag
    rw [List.find?_append]
    have hnone : flags.find? (fun p => decide (p.1 = n)) = Option.none := by
      rw [List.find?_eq_none]
      intro p hp
      intro hpred
      exact hany (List.any_eq_true.mpr ⟨p, hp, hpred⟩)
    rw [hnone, Option.none_or, List.find?_cons_of_pos _ (by simp)]
    rfl

theorem scheduledExecuteReset_flag_completed (f : ResetFailure) (flags : FlagStore)
    (db : Db) :
    getResetFlag (scheduledExecuteReset f flags db).flags RESET_FLAG_NAME = .completed := by
  simp only [scheduledExecuteReset]
  split
  · rename_i h
    exact h
  · split
    · exact getResetFlag_setResetFlag _ _ _
    · exact getResetFlag_setResetFlag _ _ _

theorem scheduledExecuteReset_noop_of_completed (f : ResetFailure) (flags : FlagStore)
    (db : Db) (h : getResetFlag flags RESET_FLAG_NAME = .completed) :
    scheduledExecuteReset f flags db = ⟨flags, db, [.logAbortCompleted], 0, 0⟩ := by
  unfold scheduledExecuteReset
  rw [if_pos h]

/-- Guild with one member holding the legacy member role, used as the C1
counterexample input. -/
def c1Guild : GuildState := ⟨{ROLES_MEMBER, ROLES_UNVERIFIED}, [("u1", {ROLES_MEMBER})]⟩

/-- Table with the counterexample member's subscribed record. -/
def c1Db : Db :=
  [⟨"u1", "t", "", "", "", Option.none, Option.none, some "cus_1", some "sub_1",
    .active, some 5, false⟩]

/-- Failure oracle injecting no failures. -/
def noAdminFail : AdminFailure := fun _ _ => false

/-- Counterexample to C1 as stated: with the persisted flag reading
completed, the on-demand administrative reset path (which consults no
flag) still executes its per-user steps — it cancels the member's Stripe
subscription, strips the member role, deletes the DB row and notifies. -/
theorem reset_guard_counterexample :
    getResetFlag [(RESET_FLAG_NAME, .completed)] RESET_FLAG_NAME = .completed ∧
    (adminExecuteReset noAdminFail c1Guild c1Db).counts = ⟨1, 0, 1⟩ ∧
    ResetEffect.cancelStripeSub "sub_1" ∈ (adminExecuteReset noAdminFail c1Guild c1Db).effs ∧
    ResetEffect.removeRole "u1" ROLES_MEMBER ∈
      (adminExecuteReset noAdminFail c1Guild c1Db).effs ∧
    ResetEffect.deleteDbUser "u1" ∈ (adminExecuteReset noAdminFail c1Guild c1Db).effs ∧
    ResetEffect.dmReset "u1" ∈ (adminExecuteReset noAdminFail c1Guild c1Db).effs := by
  decide

/-- C1 (amended): the scheduled one-time reset re-reads its persisted flag
immediately before acting and aborts as a logged no-op when it is
completed, and every run leaves the flag completed, so invoking the
scheduled operation twice executes the underlying batch at most once; the
on-demand administrative reset path consults no flag and processes its
full batch of role-holding members on every invocation. -/
theorem reset_guard_at_most_once (f1 f2 : ResetFailure) (fa : AdminFailure)
    (flags : FlagStore) (db : Db) (g : GuildState) (dba : Db) :
    getResetFlag (scheduledExecuteReset f1 flags db).flags RESET_FLAG_NAME = .completed ∧
    (getResetFlag flags RESET_FLAG_NAME = .completed →
      scheduledExecuteReset f1 flags db = ⟨flags, db, [.logAbortCompleted], 0, 0⟩) ∧
    (scheduledExecuteReset f2 (scheduledExecuteReset f1 flags db).flags
      (scheduledExecuteReset f1 flags db).db).effs = [.logAbortCompleted] ∧
    (scheduledExecuteReset f2 (scheduledExecuteReset f1 flags db).flags
      (scheduledExecuteReset f1 flags db).db).db = (scheduledExecuteReset f1 flags db).db ∧
    (adminExecuteReset fa g dba).counts.totalCount = (membersToReset g).length := by
  have hsecond := scheduledExecuteReset_noop_of_completed f2
    (scheduledExecuteReset f1 flags db).flags (scheduledExecuteReset f1 flags db).db
    (scheduledExecuteReset_flag_completed f1 flags db)
  refine ⟨scheduledExecuteReset_flag_completed f1 flags db,
    scheduledExecuteReset_noop_of_completed f1 flags db, ?_, ?_, ?_⟩
  · rw [hsecond]
  · rw [hsecond]
  · unfold adminExecuteReset
    split
    · rename_i h
      simpa using h.symm
    · rfl

/-- Witness for C1 (amended) at concrete inputs. -/
theorem reset_guard_at_most_once_witness :
    scheduledExecuteReset (fun _ _ => false) [(RESET_FLAG_NAME, .completed)] c1Db =
      ⟨[(RESET_FLAG_NAME, .completed)], c1Db, [.logAbortCompleted], 0, 0⟩ ∧
    getResetFlag (scheduledExecuteReset (fun _ _ => false) [] c1Db).flags
      RESET_FLAG_NAME = .completed := by
  have h := reset_guard_at_most_once (fun _ _ => false) (fun _ _ => false) noAdminFail
    [(RESET_FLAG_NAME, .completed)] c1Db c1Guild c1Db
  have h2 := reset_guard_at_most_once (fun _ _ => false) (fun _ _ => false) noAdminFail
    [] c1Db c1Guild c1Db
  exact ⟨h.2.1 (by decide), h2.1⟩

/-! ## Partial-failure resilience of the admin reset batch -/

theorem adminRoleRemoveStep_ok (f : AdminFailure) (id : String) (cache rs : Finset RoleId)
    (es : List ResetEffect) (roleId : RoleId) (hf : f id .removeRole = false) :
    adminRoleRemoveStep f id cache (.ok (rs, es)) roleId =
      if roleId ∈ rs ∧ roleId ∈ cache then .ok (rs.erase roleId, es ++ [.removeRole id roleId])
      else .ok (rs, es) := by
  unfold adminRoleRemoveStep
  simp [hf]

theorem adminRoleRemoveFold_noFail (f : AdminFailure) (id : String) (cache : Finset RoleId)
    (hf : f id .removeRole = false) (l : List RoleId) (hN : l.Nodup)
    (rs0 : Finset RoleId) (es0 : List ResetEffect) :
    ∃ rs es2, l.foldl (adminRoleRemoveStep f id cache) (.ok (rs0, es0)) = .ok (rs, es0 ++ es2) ∧
      (∀ r ∈ l, r ∈ rs0 → r ∈ cache → ResetEffect.removeRole id r ∈ es2) := by
  induction l generalizing rs0 es0 with
  | nil => exact ⟨rs0, [], by simp, by simp⟩
  | cons a l ih =>
    have haN : a ∉ l := (List.nodup_cons.mp hN).1
    have hlN : l.Nodup := (List.nodup_cons.mp hN).2
    rw [List.foldl_cons, adminRoleRemoveStep_ok f id cache rs0 es0 a hf]
    by_cases ca : a ∈ rs0 ∧ a ∈ cache
    · rw [if_pos ca]
      obtain ⟨rs, es2, hfold, hmem⟩ := ih hlN (rs0.erase a) (es0 ++ [.removeRole id a])
      refine ⟨rs, [.removeRole id a] ++ es2, by rw [hfold, List.append_assoc], ?_⟩
      intro r hr hrs hrc
      rcases List.mem_cons.mp hr with h | h
      · subst h
        simp
      · have hra : r ≠ a := fun he => haN (he ▸ h)
        have hre : r ∈ rs0.erase a := Finset.mem_erase.mpr ⟨hra, hrs⟩
        exact List.mem_append.mpr (Or.inr (hmem r h hre hrc))
    · rw [if_neg ca]
      obtain ⟨rs, es2, hfold, hmem⟩ := ih hlN rs0 es0
      refine ⟨rs, es2, hfold, ?_⟩
      intro r hr hrs hrc
      rcases List.mem_cons.mp hr with h | h
      · subst h
        exact absurd ⟨hrs, hrc⟩ ca
      · exact hmem r h hrs hrc

theorem adminRoleRemoveFold_error_prop (f : AdminFailure) (id : String)
    (cache : Finset RoleId) (l : List RoleId) (e : Finset RoleId × List ResetEffect) :
    l.foldl (adminRoleRemoveStep f id cache) (.error e) = .error e := by
  induction l with
  | nil => rfl
  | cons a l ih =>
    rw [List.foldl_cons]
    exact ih

theorem adminRoleRemoveFold_error (f : AdminFailure) (id : String) (cache : Finset RoleId)
    (hfail : f id .removeRole = true) (l : List RoleId) (rs0 : Finset RoleId)
    (es0 : List ResetEffect) (hatt : ∃ r ∈ l, r ∈ rs0 ∧ r ∈ cache) :
    l.foldl (adminRoleRemoveStep f id cache) (.ok (rs0, es0)) = .error (rs0, es0) := by
  induction l with
  | nil => simp at hatt
  | cons a l ih =>
    rw [List.foldl_cons]
    by_cases ca : a ∈ rs0 ∧ a ∈ cache
    · have hstep : adminRoleRemoveStep f id cache (.ok (rs0, es0)) a = .error (rs0, es0) := by
        unfold adminRoleRemoveStep
        simp [ca, hfail]
      rw [hstep]
      exact adminRoleRemoveFold_error_prop f id cache l (rs0, es0)
    · have hstep : adminRoleRemoveStep f id cache (.ok (rs0, es0)) a = .ok (rs0, es0) := by
        unfold adminRoleRemoveStep
        simp [ca]
      rw [hstep]
      apply ih
      rcases hatt with ⟨r, hr, hcond⟩
      rcases List.mem_cons.mp hr with h | h
      · subst h
        exact absurd hcond ca
      · exact ⟨r, h, hcond⟩

theorem adminProcessMember_failRemove (f : AdminFailure) (cache : Finset RoleId) (db : Db)
    (m : String × Finset RoleId) (hfail : f m.1 .removeRole = true)
    (hatt : ∃ r ∈ MEMBER_ROLE_IDS, r ∈ m.2 ∧ r ∈ cache) :
    (adminProcessMember f cache db m).ok = false ∧
    (adminProcessMember f cache db m).db = db := by
  unfold adminProcessMember
  rw [adminRoleRemoveFold_error f m.1 cache hfail MEMBER_ROLE_IDS m.2
    (adminCancelStep f m.1 db) hatt]
  exact ⟨rfl, rfl⟩

theorem adminProcessMember_noFail (f : AdminFailure) (cache : Finset RoleId) (db : Db)
    (m : String × Finset RoleId) (hf : ∀ s, f m.1 s = false) :
    (adminProcessMember f cache db m).ok = true ∧
    (adminProcessMember f cache db m).db = (deleteUser false db m.1).1 ∧
    ResetEffect.deleteDbUser m.1 ∈ (adminProcessMember f cache db m).effs ∧
    ResetEffect.dmReset m.1 ∈ (adminProcessMember f cache db m).effs ∧
    (∀ r ∈ MEMBER_ROLE_IDS, r ∈ m.2 → r ∈ cache →
      ResetEffect.removeRole m.1 r ∈ (adminProcessMember f cache db m).effs) ∧
    (∀ u, getUserByDiscordId db m.1 = some u → ∀ sid, u.stripe_subscription_id = some sid →
      ResetEffect.cancelStripeSub sid ∈ (adminProcessMember f cache db m).effs) := by
  obtain ⟨rs, es2, hfold, hmem⟩ := adminRoleRemoveFold_noFail f m.1 cache (hf .removeRole)
    MEMBER_ROLE_IDS (by decide) m.2 (adminCancelStep f m.1 db)
  have hfin : ∀ db2 rs2 es3, adminFinishMember f m.1 db2 rs2 es3 =
      ⟨(deleteUser false db2 m.1).1, rs2, es3 ++ [.deleteDbUser m.1] ++ [.dmReset m.1],
        true⟩ := by
    intro db2 rs2 es3
    unfold adminFinishMember
    rw [if_neg (by simp [hf]), if_neg (by simp [hf])]
  have hcs : ∀ u, getUserByDiscordId db m.1 = some u →
      ∀ sid, u.stripe_subscription_id = some sid →
      adminCancelStep f m.1 db = [.cancelStripeSub sid] := by
    intro u hu sid hsid
    simp [adminCancelStep, hu, hsid, hf]
  unfold adminProcessMember
  rw [hfold]
  dsimp only
  split
  · rw [if_neg (by simp [hf]), hfin]
    refine ⟨rfl, rfl, by simp, by simp, ?_, ?_⟩
    · intro r hr hrs hrc
      simp only [List.mem_append]
      exact Or.inl (Or.inl (Or.inl (Or.inr (hmem r hr hrs hrc))))
    · intro u hu sid hsid
      simp only [List.mem_append]
      exact Or.inl (Or.inl (Or.inl (Or.inl (by simp [hcs u hu sid hsid]))))
  · rw [hfin]
    refine ⟨rfl, rfl, by simp, by simp, ?_, ?_⟩
    · intro r hr hrs hrc
      simp only [List.mem_append]
      exact Or.inl (Or.inl (Or.inr (hmem r hr hrs hrc)))
    · intro u hu sid hsid
      simp only [List.mem_append]
      exact Or.inl (Or.inl (Or.inl (by simp [hcs u hu sid hsid])))

theorem find_filter_ne (l : List DbUser) (i j : String) (hij : j ≠ i) :
    (l.filter (fun u => !(decide (u.discord_id = i)))).find?
      (fun u => decide (u.discord_id = j)) = l.find? (fun u => decide (u.discord_id = j)) := by
  induction l with
  | nil => rfl
  | cons a l ih =>
    by_cases ha : a.discord_id = i
    · rw [List.filter_cons_of_neg (by simp [ha]),
        List.find?_cons_of_neg _ (by simp [ha]; exact fun h => hij h.symm), ih]
    · rw [List.filter_cons_of_pos (by simp [ha])]
      by_cases hj : a.discord_id = j
      · rw [List.find?_cons_of_pos _ (by simp [hj]), List.find?_cons_of_pos _ (by simp [hj])]
      · rw [List.find?_cons_of_neg _ (by simp [hj]), List.find?_cons_of_neg _ (by simp [hj]),
          ih]

theorem getUser_deleteUser_ne (db : Db) (i j : String) (hij : j ≠ i) :
    getUserByDiscordId (deleteUser false db i).1 j = getUserByDiscordId db j := by
  have hfst : (deleteUser false db i).1 =
      db.filter (fun u => !(decide (u.discord_id = i))) := by
    unfold deleteUser
    rw [if_neg (by simp)]
  rw [hfst]
  exact find_filter_ne db i j hij

theorem updateMember_roleCache (g : GuildState) (id : String) (r : Finset RoleId) :
    (updateMember g id r).roleCache = g.roleCache := rfl

theorem roleCache_mk (c : Finset RoleId) (ms : List (String × Finset RoleId)) :
    (GuildState.mk c ms).roleCache = c := rfl

theorem adminResetStep_eval (f : AdminFailure) (db0 : Db) (g0 : GuildState)
    (es : List ResetEffect) (sc ec : Nat) (m : String × Finset RoleId) :
    adminResetStep f (db0, g0, es, sc, ec) m =
      if (adminProcessMember f g0.roleCache db0 m).ok then
        ((adminProcessMember f g0.roleCache db0 m).db,
          updateMember g0 m.1 (adminProcessMember f g0.roleCache db0 m).roles,
          es ++ (adminProcessMember f g0.roleCache db0 m).effs, sc + 1, ec)
      else
        ((adminProcessMember f g0.roleCache db0 m).db,
          updateMember g0 m.1 (adminProcessMember f g0.roleCache db0 m).roles,
          es ++ (adminProcessMember f g0.roleCache db0 m).effs, sc, ec + 1) := rfl

/-- C3: in a batch of three role-holding members where the injected
failure makes the privilege-revoke step throw for the second, the first
and third members still complete all of their steps (cancel when
subscribed, revoke of every held member role, DB-row deletion, reset DM),
the returned aggregate reports exactly 1 failure out of 3, and the
scheduled reset writes its flag completed regardless of the failure
oracle. -/
theorem partial_failure_resilience (cache : Finset RoleId)
    (m1 m2 m3 : String × Finset RoleId) (db : Db) (f : AdminFailure)
    (h13 : m3.1 ≠ m1.1)
    (hm1 : MEMBER_ROLE_IDS.any (fun r => decide (r ∈ m1.2)) = true)
    (hm2 : MEMBER_ROLE_IDS.any (fun r => decide (r ∈ m2.2)) = true)
    (hm3 : MEMBER_ROLE_IDS.any (fun r => decide (r ∈ m3.2)) = true)
    (hf1 : ∀ s, f m1.1 s = false) (hf3 : ∀ s, f m3.1 s = false)
    (hf2 : f m2.1 .removeRole = true)
    (hatt2 : ∃ r ∈ MEMBER_ROLE_IDS, r ∈ m2.2 ∧ r ∈ cache) :
    (adminExecuteReset f ⟨cache, [m1, m2, m3]⟩ db).counts = ⟨2, 1, 3⟩ ∧
    (ResetEffect.deleteDbUser m1.1 ∈ (adminExecuteReset f ⟨cache, [m1, m2, m3]⟩ db).effs ∧
      ResetEffect.dmReset m1.1 ∈ (adminExecuteReset f ⟨cache, [m1, m2, m3]⟩ db).effs ∧
      (∀ r ∈ MEMBER_ROLE_IDS, r ∈ m1.2 → r ∈ cache →
        ResetEffect.removeRole m1.1 r ∈ (adminExecuteReset f ⟨cache, [m1, m2, m3]⟩ db).effs) ∧
      (∀ u, getUserByDiscordId db m1.1 = some u →
        ∀ sid, u.stripe_subscription_id = some sid →
          ResetEffect.cancelStripeSub sid ∈
            (adminExecuteReset f ⟨cache, [m1, m2, m3]⟩ db).effs)) ∧
    (ResetEffect.deleteDbUser m3.1 ∈ (adminExecuteReset f ⟨cache, [m1, m2, m3]⟩ db).effs ∧
      ResetEffect.dmReset m3.1 ∈ (adminExecuteReset f ⟨cache, [m1, m2, m3]⟩ db).effs ∧
      (∀ r ∈ MEMBER_ROLE_IDS, r ∈ m3.2 → r ∈ cache →
        ResetEffect.removeRole m3.1 r ∈ (adminExecuteReset f ⟨cache, [m1, m2, m3]⟩ db).effs) ∧
      (∀ u, getUserByDiscordId db m3.1 = some u →
        ∀ sid, u.stripe_subscription_id = some sid →
          ResetEffect.cancelStripeSub sid ∈
            (adminExecuteReset f ⟨cache, [m1, m2, m3]⟩ db).effs)) ∧
    (∀ fs flags db2,
      getResetFlag (scheduledExecuteReset fs flags db2).flags RESET_FLAG_NAME =
        .completed) := by
  have H1 := adminProcessMember_noFail f cache db m1 hf1
  have H2 := adminProcessMember_failRemove f cache
    (adminProcessMember f cache db m1).db m2 hf2 hatt2
  have H3 := adminProcessMember_noFail f cache
    (adminProcessMember f cache db m1).db m3 hf3
  have hfil : membersToReset ⟨cache, [m1, m2, m3]⟩ = [m1, m2, m3] := by
    unfold membersToReset
    rw [List.filter_cons_of_pos (by simpa using hm1),
      List.filter_cons_of_pos (by simpa using hm2),
      List.filter_cons_of_pos (by simpa using hm3), List.filter_nil]
  have hrun : adminExecuteReset f ⟨cache, [m1, m2, m3]⟩ db =
      ⟨⟨2, 1, 3⟩,
        (([] ++ (adminProcessMember f cache db m1).effs) ++
          (adminProcessMember f cache (adminProcessMember f cache db m1).db m2).effs) ++
          (adminProcessMember f cache (adminProcessMember f cache db m1).db m3).effs,
        (adminProcessMember f cache (adminProcessMember f cache db m1).db m3).db,
        updateMember
          (updateMember
            (updateMember ⟨cache, [m1, m2, m3]⟩ m1.1
              (adminProcessMember f cache db m1).roles) m2.1
            (adminProcessMember f cache (adminProcessMember f cache db m1).db m2).roles)
          m3.1
          (adminProcessMember f cache (adminProcessMember f cache db m1).db m3).roles⟩ := by
    unfold adminExecuteReset
    rw [hfil, if_neg (by simp)]
    rw [List.foldl_cons, adminResetStep_eval]
    simp only [updateMember_roleCache, roleCache_mk]
    rw [if_pos H1.1]
    rw [List.foldl_cons, adminResetStep_eval]
    simp only [updateMember_roleCache, roleCache_mk]
    rw [if_neg (by rw [H2.1]; simp)]
    rw [H2.2]
    rw [List.foldl_cons, adminResetStep_eval]
    simp only [updateMember_roleCache, roleCache_mk]
    rw [if_pos H3.1, List.foldl_nil]
    rfl
  rw [hrun]
  refine ⟨rfl, ⟨?_, ?_, ?_, ?_⟩, ⟨?_, ?_, ?_, ?_⟩, fun fs flags db2 =>
    scheduledExecuteReset_flag_completed fs flags db2⟩
  · simp only [List.mem_append]
    exact Or.inl (Or.inl (Or.inr H1.2.2.1))
  · simp only [List.mem_append]
    exact Or.inl (Or.inl (Or.inr H1.2.2.2.1))
  · intro r hr hrs hrc
    simp only [List.mem_append]
    exact Or.inl (Or.inl (Or.inr (H1.2.2.2.2.1 r hr hrs hrc)))
  · intro u hu sid hsid
    simp only [List.mem_append]
    exact Or.inl (Or.inl (Or.inr (H1.2.2.2.2.2 u hu sid hsid)))
  · simp only [List.mem_append]
    exact Or.inr H3.2.2.1
  · simp only [List.mem_append]
    exact Or.inr H3.2.2.2.1
  · intro r hr hrs hrc
    simp only [List.mem_append]
    exact Or.inr (H3.2.2.2.2.1 r hr hrs hrc)
  · intro u hu sid hsid
    simp only [List.mem_append]
    refine Or.inr (H3.2.2.2.2.2 u ?_ sid hsid)
    rw [H1.2.1, getUser_deleteUser_ne db m1.1 m3.1 h13]
    exact hu

/-- Guild role cache for the C3 witness. -/
def w3Cache : Finset RoleId := {ROLES_MEMBER, ROLES_UNVERIFIED}

/-- Subscribed DB row of the first witness member. -/
def w3RowA : DbUser :=
  ⟨"a", "t", "", "", "", Option.none, Option.none, Option.none, some "sA",
    .active, Option.none, false⟩

/-- Subscribed DB row of the third witness member. -/
def w3RowC : DbUser :=
  ⟨"c", "t", "", "", "", Option.none, Option.none, Option.none, some "sC",
    .active, Option.none, false⟩

/-- Table for the C3 witness. -/
def w3Db : Db := [w3RowA, w3RowC]

/-- Failure oracle for the C3 witness: only member "b" fails, and only on
the privilege-revoke step. -/
def w3f : AdminFailure := fun id s =>
  decide (id = "b") && decide (s = AdminStep.removeRole)

/-- Witness for C3: concrete batch of three members where the revoke step
fails for the second; the aggregate is exactly 1 failure out of 3 and the
first and third members completed their steps. -/
theorem partial_failure_resilience_witness :
    (adminExecuteReset w3f
      ⟨w3Cache, [("a", {ROLES_MEMBER}), ("b", {ROLES_MEMBER}), ("c", {ROLES_MEMBER})]⟩
      w3Db).counts = ⟨2, 1, 3⟩ ∧
    ResetEffect.deleteDbUser "a" ∈ (adminExecuteReset w3f
      ⟨w3Cache, [("a", {ROLES_MEMBER}), ("b", {ROLES_MEMBER}), ("c", {ROLES_MEMBER})]⟩
      w3Db).effs ∧
    ResetEffect.cancelStripeSub "sC" ∈ (adminExecuteReset w3f
      ⟨w3Cache, [("a", {ROLES_MEMBER}), ("b", {ROLES_MEMBER}), ("c", {ROLES_MEMBER})]⟩
      w3Db).effs := by
  have h := partial_failure_resilience w3Cache ("a", {ROLES_MEMBER}) ("b", {ROLES_MEMBER})
    ("c", {ROLES_MEMBER}) w3Db w3f (by decide) (by decide) (by decide) (by decide)
    (by intro s; cases s <;> rfl) (by intro s; cases s <;> rfl) rfl (by decide)
  exact ⟨h.1, h.2.1.1, h.2.2.1.2.2.2 w3RowC (by decide) "sC" rfl⟩

end Seolaxy
